import Mathlib

/-!
Verification of the order-management core: the priority `OrderQueue`
(`src/services/orderQueue.js`), the `Bot` state machine
(`src/models/bot.js`) and the `OrderController` scheduler
(`src/orderController.js`), shallowly embedded as pure Lean functions.

JavaScript `Order` objects are shared mutable references: the same object
sits in the controller's `orders` array and in the queue, a bot's
`currentOrder` slot, or the completed list.  We model this by keeping the
mutable `status` field in a single canonical store (the controller's
`orders` list, keyed by the unique order number) while the queue, bots and
the completed list hold immutable references (`OrderRef` = number + type).
A mutation such as `order.returnToPending()` becomes an update of the
canonical entry with that number.

Exceptions are modelled with `Except`: a thrown exception carries the
state as mutated up to the throw point, since JavaScript does not roll
back mutations when an exception propagates.
-/

namespace OrderSys

/-- Order types, from `ORDER_TYPES` in `src/constants.js`. -/
inductive OrderType
  | NORMAL
  | VIP
deriving DecidableEq, Repr

/-- Order status values, from `ORDER_STATUS` in `src/constants.js`. -/
inductive OrderStatus
  | PENDING
  | PROCESSING
  | COMPLETE
deriving DecidableEq, Repr

/-- Bot status values, from `BOT_STATUS` in `src/constants.js`. -/
inductive BotStatus
  | IDLE
  | PROCESSING
deriving DecidableEq, Repr

/-- `STARTING_ORDER_NUMBER` in `src/constants.js`. -/
def STARTING_ORDER_NUMBER : Nat := 1001

/-- `STARTING_BOT_ID` in `src/constants.js`. -/
def STARTING_BOT_ID : Nat := 1

/-- The immutable part of an `Order` object (`src/models/order.js`):
its unique number and its type.  The mutable `status` field lives in the
controller's canonical store (`OrderEntry`). -/
structure OrderRef where
  num : Nat
  typ : OrderType
deriving DecidableEq, Repr

/-- `Order.prototype.isVIP` : `this.type === ORDER_TYPES.VIP`. -/
def OrderRef.isVIP (r : OrderRef) : Bool :=
  r.typ = OrderType.VIP

/-- The state of an `OrderQueue` (`src/services/orderQueue.js`):
the `orders` array and the cached `vipOrderCount`. -/
structure OrderQueue where
  orders : List OrderRef
  vipOrderCount : Nat
deriving DecidableEq, Repr

/-- `new OrderQueue()`. -/
def OrderQueue.empty : OrderQueue :=
  { orders := [], vipOrderCount := 0 }

/-- `OrderQueue.prototype.enqueue`: a VIP order is spliced in at index
`vipOrderCount` (and the cache is bumped), a normal order is pushed at the
end.  `splice(i, 0, x)` on an array `l` is `take i l ++ [x] ++ drop i l`
(also when `i` exceeds the length). -/
def OrderQueue.enqueue (q : OrderQueue) (r : OrderRef) : OrderQueue :=
  if r.isVIP then
    { orders := q.orders.take q.vipOrderCount ++ [r] ++ q.orders.drop q.vipOrderCount,
      vipOrderCount := q.vipOrderCount + 1 }
  else
    { orders := q.orders ++ [r], vipOrderCount := q.vipOrderCount }

/-- `OrderQueue.prototype.dequeue`: returns `null` on an empty queue,
otherwise shifts off the front element and, if it is VIP, decrements the
cached count. -/
def OrderQueue.dequeue (q : OrderQueue) : Option OrderRef × OrderQueue :=
  match q.orders with
  | [] => (none, q)
  | r :: rest =>
      (some r,
       { orders := rest,
         vipOrderCount := if r.isVIP then q.vipOrderCount - 1 else q.vipOrderCount })

/-- `OrderQueue.prototype.size`. -/
def OrderQueue.size (q : OrderQueue) : Nat :=
  q.orders.length

/-- `OrderQueue.prototype.isEmpty`. -/
def OrderQueue.isEmpty (q : OrderQueue) : Bool :=
  q.orders.length = 0

/-- `OrderQueue.prototype.getAll`: a copy of the `orders` array. -/
def OrderQueue.getAll (q : OrderQueue) : List OrderRef :=
  q.orders

/-- `OrderQueue.prototype.clear`. -/
def OrderQueue.clear (_ : OrderQueue) : OrderQueue :=
  { orders := [], vipOrderCount := 0 }

/-- A queue mutator call, for stating trace properties of `OrderQueue`. -/
inductive QOp
  | enq (r : OrderRef)
  | deq
  | clear
deriving DecidableEq, Repr

/-- Apply one mutator call to a queue (the value returned by `dequeue` is
dropped; only the state matters here). -/
def QOp.apply (q : OrderQueue) : QOp → OrderQueue
  | .enq r => q.enqueue r
  | .deq => (q.dequeue).2
  | .clear => q.clear

/-- Run a sequence of mutator calls on a fresh queue. -/
def runQueue (ops : List QOp) : OrderQueue :=
  ops.foldl QOp.apply OrderQueue.empty

/-- Modelled from the spec's words (§4.1/§9, the two-sequence oracle): the
queue as the pair of the currently queued HIGH/VIP orders in enqueue order
and the currently queued NORMAL orders in enqueue order.  Used only as the
specification side of the C1 refinement. -/
structure SpecQueue where
  vips : List OrderRef
  normals : List OrderRef
deriving DecidableEq, Repr

/-- Spec-side enqueue: a VIP order goes to the back of the VIP sequence,
a normal order to the back of the normal sequence. -/
def SpecQueue.enqueue (p : SpecQueue) (r : OrderRef) : SpecQueue :=
  if r.isVIP then { p with vips := p.vips ++ [r] }
  else { p with normals := p.normals ++ [r] }

/-- Spec-side dequeue: the front VIP order if any, else the front normal
order, else nothing. -/
def SpecQueue.dequeue (p : SpecQueue) : SpecQueue :=
  match p.vips with
  | v :: vs => { p with vips := vs }
  | [] =>
      match p.normals with
      | _ :: ns => { p with normals := ns }
      | [] => p

/-- Apply one mutator call on the spec side. -/
def QOp.applySpec (p : SpecQueue) : QOp → SpecQueue
  | .enq r => p.enqueue r
  | .deq => p.dequeue
  | .clear => { vips := [], normals := [] }

/-- Run a sequence of mutator calls on the spec-side model. -/
def runSpecQueue (ops : List QOp) : SpecQueue :=
  ops.foldl QOp.applySpec { vips := [], normals := [] }

/-- Class purity of the spec-side model: the first sequence holds only
VIP orders, the second only normal orders. -/
def SpecQueue.pure (p : SpecQueue) : Prop :=
  (∀ r ∈ p.vips, r.isVIP = true) ∧ (∀ r ∈ p.normals, r.isVIP = false)

/-- Concretisation of a spec-side queue to an implementation queue. -/
def SpecQueue.conc (p : SpecQueue) : OrderQueue :=
  { orders := p.vips ++ p.normals, vipOrderCount := p.vips.length }

theorem conc_enqueue (p : SpecQueue) (hp : p.pure) (r : OrderRef) :
    (p.conc).enqueue r = (p.enqueue r).conc := by
  rcases hp with ⟨hv, hn⟩
  by_cases h : r.isVIP
  · simp only [OrderQueue.enqueue, SpecQueue.enqueue, SpecQueue.conc, h, if_pos]
    simp [List.take_left, List.drop_left, List.append_assoc]
  · simp only [OrderQueue.enqueue, SpecQueue.enqueue, SpecQueue.conc, h, if_neg,
      Bool.false_eq_true, not_false_iff]
    simp [List.append_assoc]

theorem conc_dequeue (p : SpecQueue) (hp : p.pure) :
    ((p.conc).dequeue).2 = p.dequeue.conc := by
  rcases hp with ⟨hv, hn⟩
  match hvs : p.vips with
  | v :: vs =>
      have hvip : v.isVIP = true := hv v (by simp [hvs])
      simp [OrderQueue.dequeue, SpecQueue.dequeue, SpecQueue.conc, hvs, hvip]
  | [] =>
      match hns : p.normals with
      | n :: ns =>
          have hnn : n.isVIP = false := hn n (by simp [hns])
          simp [OrderQueue.dequeue, SpecQueue.dequeue, SpecQueue.conc, hvs, hns, hnn]
      | [] =>
          simp [OrderQueue.dequeue, SpecQueue.dequeue, SpecQueue.conc, hvs, hns]

theorem pure_enqueue (p : SpecQueue) (hp : p.pure) (r : OrderRef) :
    (p.enqueue r).pure := by
  rcases hp with ⟨hv, hn⟩
  by_cases h : r.isVIP
  · refine ⟨?_, ?_⟩ <;> simp only [SpecQueue.enqueue, h, if_pos]
    · intro x hx
      rcases List.mem_append.mp hx with hx' | hx'
      · exact hv x hx'
      · simpa [List.mem_singleton.mp hx']
    · exact hn
  · refine ⟨?_, ?_⟩ <;>
      simp only [SpecQueue.enqueue, h, Bool.false_eq_true, if_neg, not_false_iff]
    · exact hv
    · intro x hx
      rcases List.mem_append.mp hx with hx' | hx'
      · exact hn x hx'
      · have hx'' := List.mem_singleton.mp hx'
        subst hx''
        simpa using h

theorem pure_dequeue (p : SpecQueue) (hp : p.pure) : p.dequeue.pure := by
  rcases hp with ⟨hv, hn⟩
  match hvs : p.vips with
  | v :: vs =>
      exact ⟨fun x hx => hv x (by simp [hvs, SpecQueue.dequeue, hx] at hx ⊢; simp [hx]),
        by simpa [SpecQueue.dequeue, hvs] using hn⟩
  | [] =>
      match hns : p.normals with
      | n :: ns =>
          refine ⟨by simpa [SpecQueue.dequeue, hvs, hns] using hv, ?_⟩
          intro x hx
          simp [SpecQueue.dequeue, hvs, hns] at hx
          exact hn x (by simp [hns, hx])
      | [] =>
          exact ⟨by simpa [SpecQueue.dequeue, hvs, hns] using hv,
            by simpa [SpecQueue.dequeue, hvs, hns] using hn⟩

theorem runSpecQueue_pure_sim (ops : List QOp) :
    (runSpecQueue ops).pure ∧ runQueue ops = (runSpecQueue ops).conc := by
  suffices h : ∀ (p : SpecQueue), p.pure →
      ((ops.foldl QOp.applySpec p).pure ∧
        ops.foldl QOp.apply p.conc = (ops.foldl QOp.applySpec p).conc) by
    have h0 : (SpecQueue.mk [] []).pure := by
      constructor <;> intro r hr <;> simp at hr
    have := h ⟨[], []⟩ h0
    simpa [runQueue, runSpecQueue, SpecQueue.conc, OrderQueue.empty] using this
  induction ops with
  | nil => intro p hp; exact ⟨hp, rfl⟩
  | cons op rest ih =>
      intro p hp
      have hstep : (QOp.applySpec p op).pure ∧
          QOp.apply p.conc op = (QOp.applySpec p op).conc := by
        cases op with
        | enq r => exact ⟨pure_enqueue p hp r, conc_enqueue p hp r⟩
        | deq => exact ⟨pure_dequeue p hp, conc_dequeue p hp⟩
        | clear =>
            refine ⟨⟨?_, ?_⟩, ?_⟩
            · intro r hr; simp [QOp.applySpec] at hr
            · intro r hr; simp [QOp.applySpec] at hr
            · simp [QOp.apply, QOp.applySpec, OrderQueue.clear, SpecQueue.conc]
      rcases hstep with ⟨hpure, hconc⟩
      have := ih (QOp.applySpec p op) hpure
      simpa [List.foldl_cons, hconc] using this

/-- The state of a `Bot` object (`src/models/bot.js`).  `processingTimeout`
records whether the timer handle is set (`setTimeout` pending).  The
`currentOrder` slot holds a reference to the shared order object. -/
structure Bot where
  botId : Nat
  status : BotStatus
  currentOrder : Option OrderRef
  processingTimeout : Bool
deriving DecidableEq, Repr

instance : Inhabited Bot :=
  ⟨{ botId := 0, status := BotStatus.IDLE, currentOrder := none, processingTimeout := false }⟩

/-- `Bot.prototype.isIdle`. -/
def Bot.isIdle (b : Bot) : Bool :=
  b.status = BotStatus.IDLE

/-- `Bot.prototype.startProcessing`: throws (`.error`) when the bot is not
IDLE, before mutating anything; otherwise records the order, becomes
PROCESSING and starts the timer.  The call `order.startProcessing()`
mutates the shared order object; the caller applies that status update to
the canonical store. -/
def Bot.startProcessing (b : Bot) (r : OrderRef) : Except Unit Bot :=
  if b.status ≠ BotStatus.IDLE then .error ()
  else .ok { b with currentOrder := some r, status := BotStatus.PROCESSING,
                    processingTimeout := true }

/-- `Bot.prototype.completeOrder`: clears the timer handle, and if a
current order exists, returns it (the caller applies `order.complete()` to
the canonical store and invokes the completion callback) and becomes IDLE;
otherwise just becomes IDLE. -/
def Bot.completeOrder (b : Bot) : Option OrderRef × Bot :=
  let b1 := { b with processingTimeout := false }
  match b.currentOrder with
  | some r => (some r, { b1 with currentOrder := none, status := BotStatus.IDLE })
  | none => (none, { b1 with status := BotStatus.IDLE })

/-- `Bot.prototype.stopProcessing`: clears the timer handle; if a current
order exists it is returned (the caller applies `order.returnToPending()`
to the canonical store) and the bot becomes IDLE; otherwise returns
nothing and, apart from the timer handle, changes nothing. -/
def Bot.stopProcessing (b : Bot) : Option OrderRef × Bot :=
  let b1 := { b with processingTimeout := false }
  match b.currentOrder with
  | some r => (some r, { b1 with currentOrder := none, status := BotStatus.IDLE })
  | none => (none, b1)

/-- A canonical order record: the shared mutable `Order` object as stored
in the controller's `orders` array. -/
structure OrderEntry where
  num : Nat
  typ : OrderType
  status : OrderStatus
deriving DecidableEq, Repr

/-- The reference held by the queue, a bot or the completed list. -/
def OrderEntry.ref (e : OrderEntry) : OrderRef :=
  { num := e.num, typ := e.typ }

/-- The state of an `OrderController` (`src/orderController.js`).
`removedBots` holds the bot objects popped by `removeBot`: they leave the
pool but the objects (and any timer that was not cancelled) survive, which
is what makes the timer-cancellation claim contentful.  `loggerFails`
models the injected logger function: `true` means every call to it
throws. -/
structure CtrlState where
  orders : List OrderEntry
  orderQueue : OrderQueue
  completedOrders : List OrderRef
  bots : List Bot
  removedBots : List Bot
  nextOrderNumber : Nat
  nextBotId : Nat
  loggerFails : Bool
deriving DecidableEq, Repr

/-- `new OrderController(logger)`. -/
def CtrlState.init (loggerFails : Bool) : CtrlState :=
  { orders := [], orderQueue := OrderQueue.empty, completedOrders := [],
    bots := [], removedBots := [],
    nextOrderNumber := STARTING_ORDER_NUMBER, nextBotId := STARTING_BOT_ID,
    loggerFails := loggerFails }

/-- A call `this.logger(...)`: throws iff the injected logger throws. -/
def logCall (s : CtrlState) : Except CtrlState CtrlState :=
  if s.loggerFails then .error s else .ok s

/-- `order.status = st` on the shared order object with number `n`:
updates the canonical entry. -/
def setStatus (s : CtrlState) (n : Nat) (st : OrderStatus) : CtrlState :=
  { s with orders := s.orders.map fun e => if e.num = n then { e with status := st } else e }

/-- The status of order number `n` as read from the canonical store. -/
def statusOf (s : CtrlState) (n : Nat) : Option OrderStatus :=
  (s.orders.find? fun e => e.num = n).map OrderEntry.status

/-- The indices (in pool insertion order) of the idle bots:
`this.bots.filter(bot => bot.isIdle())`, with array positions standing for
the object references. -/
def idleIdxs (s : CtrlState) : List Nat :=
  (List.range s.bots.length).filter fun i => (s.bots.getD i default).isIdle

/-- One iteration of the assignment loop body on bot index `i`: dequeue
the front order and `bot.startProcessing(order, ...)` (which also marks
the order PROCESSING and starts the timer), then log the pickup.  If
`startProcessing` throws, the dequeue has already happened. -/
def bindOne (s : CtrlState) (i : Nat) : Except CtrlState CtrlState :=
  match s.orderQueue.dequeue with
  | (some r, q') =>
      match (s.bots.getD i default).startProcessing r with
      | .error _ => .error { s with orderQueue := q' }
      | .ok b' =>
          logCall (setStatus { s with orderQueue := q', bots := s.bots.set i b' }
            r.num OrderStatus.PROCESSING)
  | (none, _) => .ok s

/-- The `for (const bot of idleBots)` loop of
`OrderController.prototype._assignOrdersToIdleBots`. -/
def assignLoop : CtrlState → List Nat → Except CtrlState CtrlState
  | s, [] => .ok s
  | s, i :: rest =>
      if s.orderQueue.isEmpty then .ok s
      else
        match bindOne s i with
        | .error t => .error t
        | .ok s' => assignLoop s' rest

/-- `OrderController.prototype._assignOrdersToIdleBots`. -/
def assignPass (s : CtrlState) : Except CtrlState CtrlState :=
  let idle := idleIdxs s
  if idle.isEmpty || s.orderQueue.isEmpty then .ok s
  else assignLoop s idle

/-- `OrderController.prototype._createOrder`: allocate the next order
number, push the new PENDING order, enqueue it, log, run an assignment
pass, return the order. -/
def createOrder (s : CtrlState) (typ : OrderType) :
    Except CtrlState (CtrlState × OrderRef) :=
  let r : OrderRef := { num := s.nextOrderNumber, typ := typ }
  let s1 : CtrlState :=
    { s with nextOrderNumber := s.nextOrderNumber + 1,
             orders := s.orders ++ [{ num := r.num, typ := typ, status := OrderStatus.PENDING }],
             orderQueue := s.orderQueue.enqueue r }
  match logCall s1 with
  | .error t => .error t
  | .ok s2 =>
      match assignPass s2 with
      | .error t => .error t
      | .ok s3 => .ok (s3, r)

/-- `OrderController.prototype.createNormalOrder`. -/
def createNormalOrder (s : CtrlState) : Except CtrlState (CtrlState × OrderRef) :=
  createOrder s OrderType.NORMAL

/-- `OrderController.prototype.createVIPOrder`. -/
def createVIPOrder (s : CtrlState) : Except CtrlState (CtrlState × OrderRef) :=
  createOrder s OrderType.VIP

/-- `OrderController.prototype.addBot`: allocate the next bot id, push an
IDLE bot, log, run an assignment pass, return the bot. -/
def addBot (s : CtrlState) : Except CtrlState (CtrlState × Bot) :=
  let b : Bot := { botId := s.nextBotId, status := BotStatus.IDLE,
                   currentOrder := none, processingTimeout := false }
  let s1 : CtrlState := { s with nextBotId := s.nextBotId + 1, bots := s.bots ++ [b] }
  match logCall s1 with
  | .error t => .error t
  | .ok s2 =>
      match assignPass s2 with
      | .error t => .error t
      | .ok s3 => .ok (s3, b)

/-- `OrderController.prototype.removeBot`: returns `null` on an empty
pool; otherwise pops the most recently added bot, stops it (cancelling
its timer and, if it held an order, returning that order to PENDING and
re-enqueueing it), logs, and — only when an order was preempted — runs an
assignment pass.  Returns the removed bot. -/
def removeBot (s : CtrlState) : Except CtrlState (CtrlState × Option Bot) :=
  match s.bots.getLast? with
  | none => .ok (s, none)
  | some b =>
      let pr := b.stopProcessing
      let s1 : CtrlState :=
        { s with bots := s.bots.dropLast, removedBots := s.removedBots ++ [pr.2] }
      match pr.1 with
      | some r =>
          let s2 := setStatus s1 r.num OrderStatus.PENDING
          let s3 : CtrlState := { s2 with orderQueue := s2.orderQueue.enqueue r }
          match logCall s3 with
          | .error t => .error t
          | .ok s4 =>
              match assignPass s4 with
              | .error t => .error t
              | .ok s5 => .ok (s5, some pr.2)
      | none =>
          match logCall s1 with
          | .error t => .error t
          | .ok s2 => .ok (s2, some pr.2)

/-- A pool bot's timer fires: `Bot.prototype.completeOrder` runs (clear
the timer, mark the order COMPLETE, free the bot), then the callback
`OrderController.prototype._onOrderCompleted` (append to the completed
list, log, run an assignment pass, and log again if the freed bot is
still idle with an empty queue). -/
def fireTimer (s : CtrlState) (i : Nat) : Except CtrlState CtrlState :=
  let pr := (s.bots.getD i default).completeOrder
  let s1 : CtrlState := { s with bots := s.bots.set i pr.2 }
  match pr.1 with
  | some r =>
      let s2 := setStatus s1 r.num OrderStatus.COMPLETE
      let s3 : CtrlState := { s2 with completedOrders := s2.completedOrders ++ [r] }
      match logCall s3 with
      | .error t => .error t
      | .ok s4 =>
          match assignPass s4 with
          | .error t => .error t
          | .ok s5 =>
              if s5.orderQueue.isEmpty && (s5.bots.getD i default).isIdle then logCall s5
              else .ok s5
  | none => .ok s1

/-- A removed bot's timer fires (possible in the model only if the timer
was not cancelled at removal): the same completion path, acting on the
detached bot object. -/
def fireDetachedTimer (s : CtrlState) (j : Nat) : Except CtrlState CtrlState :=
  let pr := (s.removedBots.getD j default).completeOrder
  let s1 : CtrlState := { s with removedBots := s.removedBots.set j pr.2 }
  match pr.1 with
  | some r =>
      let s2 := setStatus s1 r.num OrderStatus.COMPLETE
      let s3 : CtrlState := { s2 with completedOrders := s2.completedOrders ++ [r] }
      match logCall s3 with
      | .error t => .error t
      | .ok s4 =>
          match assignPass s4 with
          | .error t => .error t
          | .ok s5 =>
              if s5.orderQueue.isEmpty && (s5.removedBots.getD j default).isIdle then logCall s5
              else .ok s5
  | none => .ok s1

/-- External events driving the controller.  A timer-fire event is only
enabled when the corresponding timer handle is set. -/
inductive Ev
  | createNormal
  | createVIP
  | addBot
  | removeBot
  | timerFire (i : Nat)
  | timerFireD (j : Nat)
deriving DecidableEq, Repr

/-- One event step.  `none` means the event is not enabled (a timer that
is not scheduled cannot fire) or the operation threw. -/
def step (s : CtrlState) (e : Ev) : Option CtrlState :=
  match e with
  | .createNormal => (createNormalOrder s).toOption.map Prod.fst
  | .createVIP => (createVIPOrder s).toOption.map Prod.fst
  | .addBot => (addBot s).toOption.map Prod.fst
  | .removeBot => (removeBot s).toOption.map Prod.fst
  | .timerFire i =>
      if i < s.bots.length ∧ (s.bots.getD i default).processingTimeout then
        (fireTimer s i).toOption
      else none
  | .timerFireD j =>
      if j < s.removedBots.length ∧ (s.removedBots.getD j default).processingTimeout then
        (fireDetachedTimer s j).toOption
      else none

/-- States reachable from a fresh controller whose injected logger does
not throw. -/
inductive Reachable : CtrlState → Prop
  | init : Reachable (CtrlState.init false)
  | step {s s' : CtrlState} {e : Ev} : Reachable s → step s e = some s' → Reachable s'

/-! ### Well-formedness of controller states -/

/-- Queue invariant: the array is the VIP orders followed by the normal
orders, and the cached count is the length of the VIP prefix. -/
def OrderQueue.wf (q : OrderQueue) : Prop :=
  q.orders = (q.orders.filter fun r => r.isVIP) ++ (q.orders.filter fun r => !r.isVIP)
  ∧ q.vipOrderCount = (q.orders.filter fun r => r.isVIP).length

theorem OrderQueue.wf_iff (q : OrderQueue) :
    q.wf ↔ ∃ p : SpecQueue, p.pure ∧ q = p.conc := by
  constructor
  · rintro ⟨h1, h2⟩
    refine ⟨⟨q.orders.filter fun r => r.isVIP, q.orders.filter fun r => !r.isVIP⟩, ⟨?_, ?_⟩, ?_⟩
    · intro r hr; exact (List.mem_filter.mp hr).2
    · intro r hr; simpa using (List.mem_filter.mp hr).2
    · cases q with
      | mk o c => simp only [SpecQueue.conc] at *; exact congrArg₂ OrderQueue.mk h1 h2
  · rintro ⟨p, ⟨hv, hn⟩, rfl⟩
    have hfv : (p.vips ++ p.normals).filter (fun r => r.isVIP) = p.vips := by
      rw [List.filter_append, List.filter_eq_self.mpr hv,
        List.filter_eq_nil_iff.mpr (by intro r hr; simp [hn r hr]), List.append_nil]
    have hfn : (p.vips ++ p.normals).filter (fun r => !r.isVIP) = p.normals := by
      rw [List.filter_append, List.filter_eq_nil_iff.mpr (by intro r hr; simp [hv r hr]),
        List.filter_eq_self.mpr (by intro r hr; simp [hn r hr])]
      simp
    exact ⟨by simp [SpecQueue.conc, hfv, hfn], by simp [SpecQueue.conc, hfv]⟩

theorem OrderQueue.empty_wf : OrderQueue.empty.wf := by
  constructor <;> rfl

theorem OrderQueue.enqueue_wf {q : OrderQueue} (h : q.wf) (r : OrderRef) :
    (q.enqueue r).wf := by
  rcases (OrderQueue.wf_iff q).mp h with ⟨p, hp, rfl⟩
  exact (OrderQueue.wf_iff _).mpr ⟨p.enqueue r, pure_enqueue p hp r, conc_enqueue p hp r⟩

theorem OrderQueue.dequeue_wf {q : OrderQueue} (h : q.wf) :
    (q.dequeue).2.wf := by
  rcases (OrderQueue.wf_iff q).mp h with ⟨p, hp, rfl⟩
  exact (OrderQueue.wf_iff _).mpr ⟨p.dequeue, pure_dequeue p hp, conc_dequeue p hp⟩

theorem OrderQueue.enqueue_perm (q : OrderQueue) (r : OrderRef) :
    ((q.enqueue r).orders).Perm (r :: q.orders) := by
  by_cases h : r.isVIP
  · simp only [OrderQueue.enqueue, h, if_pos]
    calc (q.orders.take q.vipOrderCount ++ [r] ++ q.orders.drop q.vipOrderCount).Perm
          (r :: (q.orders.take q.vipOrderCount ++ q.orders.drop q.vipOrderCount)) := by
            rw [List.append_assoc, List.singleton_append]
            exact List.perm_middle
      _ = r :: q.orders := by rw [List.take_append_drop]
  · simp only [OrderQueue.enqueue, h, Bool.false_eq_true, if_neg, not_false_iff]
    simpa using @List.perm_middle _ r q.orders []

theorem OrderQueue.enqueue_length (q : OrderQueue) (r : OrderRef) :
    (q.enqueue r).orders.length = q.orders.length + 1 := by
  simpa using (q.enqueue_perm r).length_eq

theorem OrderQueue.mem_enqueue {q : OrderQueue} {r x : OrderRef} :
    x ∈ (q.enqueue r).orders ↔ x = r ∨ x ∈ q.orders := by
  rw [(q.enqueue_perm r).mem_iff, List.mem_cons]

theorem OrderQueue.dequeue_cons {q : OrderQueue} {x : OrderRef} {rest : List OrderRef}
    (h : q.orders = x :: rest) :
    (q.dequeue).1 = some x ∧ ((q.dequeue).2).orders = rest := by
  simp [OrderQueue.dequeue, h]

/-- `setStatus` does not change the numbers, in order. -/
theorem setStatus_map_num (s : CtrlState) (n : Nat) (st : OrderStatus) :
    (setStatus s n st).orders.map OrderEntry.num = s.orders.map OrderEntry.num := by
  simp only [setStatus, List.map_map]
  apply List.map_congr_left
  intro e _
  by_cases h : e.num = n <;> simp [h]

theorem setStatus_length (s : CtrlState) (n : Nat) (st : OrderStatus) :
    (setStatus s n st).orders.length = s.orders.length := by
  simp [setStatus]

/-- Membership analysis for `setStatus`. -/
theorem mem_setStatus {s : CtrlState} {n : Nat} {st : OrderStatus} {e' : OrderEntry} :
    e' ∈ (setStatus s n st).orders ↔
      ∃ e ∈ s.orders, e' = if e.num = n then { e with status := st } else e := by
  simp only [setStatus, List.mem_map]
  constructor
  · rintro ⟨e, he, rfl⟩; exact ⟨e, he, rfl⟩
  · rintro ⟨e, he, rfl⟩; exact ⟨e, he, rfl⟩

theorem mem_setStatus_of_ne {s : CtrlState} {n : Nat} {st : OrderStatus} {e : OrderEntry}
    (he : e ∈ s.orders) (hne : e.num ≠ n) : e ∈ (setStatus s n st).orders := by
  rw [mem_setStatus]
  exact ⟨e, he, by simp [hne]⟩

theorem mem_setStatus_target {s : CtrlState} {n : Nat} {t : OrderType} {st₀ st : OrderStatus}
    (he : (⟨n, t, st₀⟩ : OrderEntry) ∈ s.orders) :
    (⟨n, t, st⟩ : OrderEntry) ∈ (setStatus s n st).orders := by
  rw [mem_setStatus]
  exact ⟨⟨n, t, st₀⟩, he, by simp⟩

/-- Orders of a state in pool/queue/completed-list positions.  The
per-order consistency between status and location (spec §3). -/
def StatusPlacement (s : CtrlState) : Prop :=
  ∀ e ∈ s.orders,
    (e.status = OrderStatus.PENDING ↔ e.ref ∈ s.orderQueue.orders) ∧
    (e.status = OrderStatus.PROCESSING ↔ ∃ b ∈ s.bots, b.currentOrder = some e.ref) ∧
    (e.status = OrderStatus.COMPLETE ↔ e.ref ∈ s.completedOrders)

/-- Every reference held by the queue, a bot or the completed list points
to a canonical entry (with the status matching its location). -/
def RefsClosed (s : CtrlState) : Prop :=
  (∀ r ∈ s.orderQueue.orders, (⟨r.num, r.typ, OrderStatus.PENDING⟩ : OrderEntry) ∈ s.orders) ∧
  (∀ b ∈ s.bots, ∀ r ∈ b.currentOrder,
      (⟨r.num, r.typ, OrderStatus.PROCESSING⟩ : OrderEntry) ∈ s.orders) ∧
  (∀ r ∈ s.completedOrders, (⟨r.num, r.typ, OrderStatus.COMPLETE⟩ : OrderEntry) ∈ s.orders)

/-- Order numbers are consecutive from `STARTING_ORDER_NUMBER`, and the
next-number counter sits one past the end. -/
def Numbering (s : CtrlState) : Prop :=
  s.orders.map OrderEntry.num = List.range' STARTING_ORDER_NUMBER s.orders.length ∧
  s.nextOrderNumber = STARTING_ORDER_NUMBER + s.orders.length

/-- The numbers of the references held in the queue, by the bots, and in
the completed list are pairwise distinct: each order object sits in at
most one location. -/
def RefsNodup (s : CtrlState) : Prop :=
  (s.orderQueue.orders.map OrderRef.num ++
   s.bots.filterMap (fun b => b.currentOrder.map OrderRef.num) ++
   s.completedOrders.map OrderRef.num).Nodup

/-- Worker state-machine consistency (spec §3): PROCESSING iff the
current-task slot is set iff the timer handle is set. -/
def BotWF (b : Bot) : Prop :=
  (b.status = BotStatus.PROCESSING ↔ b.currentOrder.isSome = true) ∧
  (b.status = BotStatus.PROCESSING ↔ b.processingTimeout = true)

/-- Pool bots are consistent; removed bots are stopped: IDLE, no current
order, and crucially no pending timer. -/
def BotsWF (s : CtrlState) : Prop :=
  (∀ b ∈ s.bots, BotWF b) ∧
  (∀ b ∈ s.removedBots,
      b.status = BotStatus.IDLE ∧ b.currentOrder = none ∧ b.processingTimeout = false)

/-- Bot-id bookkeeping: pool ids strictly increase, all ids start at
`STARTING_BOT_ID` and stay below the counter, and the counter counts all
bots ever created. -/
def BotIds (s : CtrlState) : Prop :=
  List.Chain' (· < ·) (s.bots.map Bot.botId) ∧
  (∀ b ∈ s.bots, STARTING_BOT_ID ≤ b.botId ∧ b.botId < s.nextBotId) ∧
  s.nextBotId = STARTING_BOT_ID + s.bots.length + s.removedBots.length

/-- Between events, pending work and idle workers cannot coexist: the
assignment pass has run to quiescence. -/
def Sched (s : CtrlState) : Prop :=
  s.orderQueue.orders ≠ [] → ∀ b ∈ s.bots, b.status = BotStatus.PROCESSING

/-- Well-formedness minus the quiescence condition: what survives the
middle of an operation, before its trailing assignment pass. -/
def WFpre (s : CtrlState) : Prop :=
  s.orderQueue.wf ∧ StatusPlacement s ∧ RefsClosed s ∧ Numbering s ∧
  RefsNodup s ∧ BotsWF s ∧ BotIds s ∧ s.loggerFails = false

/-- Full well-formedness of a controller state. -/
def WF (s : CtrlState) : Prop :=
  WFpre s ∧ Sched s

/-! ### Helper lemmas -/

instance : Inhabited OrderRef :=
  ⟨{ num := 0, typ := OrderType.NORMAL }⟩

theorem Bot.isIdle_iff {b : Bot} : b.isIdle = true ↔ b.status = BotStatus.IDLE := by
  simp [Bot.isIdle]

theorem List.getD_mem {α : Type _} {l : List α} {i : Nat} (d : α) (h : i < l.length) :
    l.getD i d ∈ l := by
  rw [List.getD_eq_getElem l d h]
  exact List.getElem_mem h

theorem entry_eq_of_num_eq {l : List OrderEntry}
    (hnd : (l.map OrderEntry.num).Nodup) {e₁ e₂ : OrderEntry}
    (h₁ : e₁ ∈ l) (h₂ : e₂ ∈ l) (h : e₁.num = e₂.num) : e₁ = e₂ :=
  List.inj_on_of_nodup_map hnd h₁ h₂ h

theorem find_num_map_setStatus (l : List OrderEntry) (n m : Nat) (st : OrderStatus) :
    (l.map fun e => if e.num = n then { e with status := st } else e).find?
        (fun e => e.num = m) =
      if n = m then (l.find? fun e => e.num = m).map
          (fun e => { e with status := st })
      else l.find? fun e => e.num = m := by
  induction l with
  | nil => by_cases h : n = m <;> simp [h]
  | cons e rest ih =>
      by_cases hm : e.num = m
      · by_cases hn : e.num = n
        · have hnm : n = m := by rw [← hn, hm]
          rw [List.map_cons, if_pos hn,
            List.find?_cons_of_pos _ (by simp [hm]),
            if_pos hnm,
            List.find?_cons_of_pos _ (by simp [hm])]
          simp
        · have hnm : ¬ n = m := fun hc => hn (by rw [hm, hc])
          rw [List.map_cons, if_neg hn,
            List.find?_cons_of_pos _ (by simp [hm]),
            if_neg hnm,
            List.find?_cons_of_pos _ (by simp [hm])]
      · have hu : (if e.num = n then ({ e with status := st } : OrderEntry) else e).num
            = e.num := by
          by_cases hn : e.num = n <;> simp [hn]
        rw [List.map_cons,
          List.find?_cons_of_neg _ (by simp [hu, hm]),
          ih]
        by_cases hnm : n = m
        · rw [if_pos hnm, if_pos hnm, List.find?_cons_of_neg _ (by simp [hm])]
        · rw [if_neg hnm, if_neg hnm, List.find?_cons_of_neg _ (by simp [hm])]

theorem statusOf_setStatus_self {s : CtrlState} {n : Nat} (st : OrderStatus)
    (h : ∃ e ∈ s.orders, e.num = n) :
    statusOf (setStatus s n st) n = some st := by
  rcases h with ⟨e, he, hn⟩
  have hsome : (s.orders.find? fun e => e.num = n).isSome :=
    List.find?_isSome.mpr ⟨e, he, by simp [hn]⟩
  rcases Option.isSome_iff_exists.mp hsome with ⟨e₀, he₀⟩
  show ((s.orders.map fun e => if e.num = n then { e with status := st } else e).find?
      (fun e => e.num = n)).map OrderEntry.status = some st
  rw [find_num_map_setStatus, if_pos rfl, he₀]
  simp

theorem statusOf_setStatus_ne {s : CtrlState} {n m : Nat} (st : OrderStatus)
    (h : n ≠ m) : statusOf (setStatus s n st) m = statusOf s m := by
  show ((s.orders.map fun e => if e.num = n then { e with status := st } else e).find?
      (fun e => e.num = m)).map OrderEntry.status = statusOf s m
  rw [find_num_map_setStatus, if_neg h]
  rfl

/-- Replacing a slot whose image under `f` is empty by one whose image is
`some y` inserts `y` into the `filterMap`, up to permutation. -/
theorem filterMap_set_perm {α β : Type _} (f : α → Option β) (d : α) :
    ∀ (l : List α) (i : Nat) (x : α) (y : β), i < l.length →
      f (l.getD i d) = none → f x = some y →
      ((l.set i x).filterMap f).Perm (y :: l.filterMap f) := by
  intro l
  induction l with
  | nil => intro i x y hi; simp at hi
  | cons a t ih =>
      intro i x y hi hnone hx
      match i with
      | 0 =>
          simp only [List.getD_cons_zero] at hnone
          simp [List.set, List.filterMap_cons, hnone, hx]
      | Nat.succ i' =>
          simp only [List.getD_cons_succ] at hnone
          have hi' : i' < t.length := by simpa using hi
          have hperm := ih i' x y hi' hnone hx
          match hfa : f a with
          | none => simpa [List.set, List.filterMap_cons, hfa] using hperm
          | some z =>
              simp only [List.set, List.filterMap_cons, hfa]
              exact (hperm.cons z).trans (List.Perm.swap y z _)

theorem mem_idleIdxs {s : CtrlState} {i : Nat} :
    i ∈ idleIdxs s ↔ i < s.bots.length ∧ (s.bots.getD i default).isIdle = true := by
  simp [idleIdxs, List.mem_filter, List.mem_range]

theorem idleIdxs_nodup (s : CtrlState) : (idleIdxs s).Nodup :=
  (List.nodup_range _).filter _

/-- The result of a successful binding: the front order is dequeued, bot
`i` is bound to it and the order is marked PROCESSING. -/
theorem bindOne_eq {s : CtrlState} {i : Nat} {r : OrderRef} {rest : List OrderRef}
    (hq : s.orderQueue.orders = r :: rest)
    (hidle : (s.bots.getD i default).isIdle = true)
    (hlf : s.loggerFails = false) :
    bindOne s i = .ok (setStatus
      { s with orderQueue := (s.orderQueue.dequeue).2,
               bots := s.bots.set i
                 { botId := (s.bots.getD i default).botId,
                   status := BotStatus.PROCESSING,
                   currentOrder := some r,
                   processingTimeout := true } }
      r.num OrderStatus.PROCESSING) := by
  have hst : (s.bots.getD i default).status = BotStatus.IDLE := Bot.isIdle_iff.mp hidle
  have hdq : s.orderQueue.dequeue =
      (some r, (s.orderQueue.dequeue).2) := by
    simp [OrderQueue.dequeue, hq]
  have hsp : (s.bots.getD i default).startProcessing r = .ok
      { botId := (s.bots.getD i default).botId, status := BotStatus.PROCESSING,
        currentOrder := some r, processingTimeout := true } := by
    rw [Bot.startProcessing, if_neg (by simp only [ne_eq, not_not]; exact hst)]
  unfold bindOne
  rw [hdq]
  dsimp only
  rw [hsp]
  dsimp only
  rw [logCall, if_neg (by simp [setStatus, hlf])]

theorem set_getD_self {α : Type _} {l : List α} {i : Nat} {d : α} (h : i < l.length) :
    l.set i (l.getD i d) = l := by
  apply List.ext_getElem (by simp)
  intro j h1 h2
  rw [List.getElem_set]
  by_cases hij : i = j
  · subst hij
    rw [if_pos rfl]
    exact List.getD_eq_getElem l d h
  · simp [hij]

theorem mem_set_self {α : Type _} {l : List α} {i : Nat} (x : α) (h : i < l.length) :
    x ∈ l.set i x := by
  have h' : i < (l.set i x).length := by simpa using h
  have hx := List.getElem_set_self (l := l) (i := i) (a := x) h'
  have hm := List.getElem_mem h'
  rwa [hx] at hm

theorem mem_set_of_ne {α : Type _} {l : List α} {i : Nat} {x b : α} (d : α)
    (hb : b ∈ l) (hne : l.getD i d ≠ b) : b ∈ l.set i x := by
  rcases List.mem_iff_getElem.mp hb with ⟨j, hj, rfl⟩
  by_cases hij : i = j
  · subst hij
    exact absurd (List.getD_eq_getElem l d hj) hne
  · have hj' : j < (l.set i x).length := by simpa using hj
    have hx := List.getElem_set_ne (l := l) (a := x) hij hj'
    exact hx ▸ List.getElem_mem hj'

theorem idle_bot_clear {b : Bot} (h : BotWF b) (hidle : b.isIdle = true) :
    b.currentOrder = none ∧ b.processingTimeout = false := by
  have hst : b.status = BotStatus.IDLE := Bot.isIdle_iff.mp hidle
  constructor
  · cases hc : b.currentOrder with
    | none => rfl
    | some r =>
        have hpr : b.status = BotStatus.PROCESSING := h.1.mpr (by simp [hc])
        rw [hst] at hpr
        cases hpr
  · cases ht : b.processingTimeout
    · rfl
    · have hpr : b.status = BotStatus.PROCESSING := h.2.mpr ht
      rw [hst] at hpr
      cases hpr

/-- Frame facts of a successful binding. -/
theorem bindOne_props {s : CtrlState} {i : Nat} {r : OrderRef} {rest : List OrderRef}
    {s' : CtrlState}
    (hq : s.orderQueue.orders = r :: rest)
    (hidle : (s.bots.getD i default).isIdle = true)
    (hlf : s.loggerFails = false)
    (hok : bindOne s i = .ok s') :
    s'.orderQueue.orders = rest ∧
    s'.bots = s.bots.set i
      { botId := (s.bots.getD i default).botId, status := BotStatus.PROCESSING,
        currentOrder := some r, processingTimeout := true } ∧
    s'.completedOrders = s.completedOrders ∧
    s'.removedBots = s.removedBots ∧
    s'.nextOrderNumber = s.nextOrderNumber ∧
    s'.nextBotId = s.nextBotId ∧
    s'.loggerFails = false ∧
    s'.orders.map OrderEntry.num = s.orders.map OrderEntry.num ∧
    s'.orders.length = s.orders.length ∧
    s'.bots.length = s.bots.length := by
  rw [bindOne_eq hq hidle hlf] at hok
  injection hok with hok
  subst hok
  refine ⟨?_, rfl, rfl, rfl, rfl, rfl, hlf, ?_, ?_, ?_⟩
  · simp [setStatus, OrderQueue.dequeue, hq]
  · exact setStatus_map_num _ _ _
  · exact setStatus_length _ _ _
  · simp [setStatus]

/-- A successful binding preserves well-formedness (minus quiescence) and
sets the bound order's status to PROCESSING. -/
theorem bindOne_wfpre {s : CtrlState} {i : Nat} {r : OrderRef} {rest : List OrderRef}
    {s' : CtrlState}
    (hwf : WFpre s)
    (hq : s.orderQueue.orders = r :: rest)
    (hi : i < s.bots.length)
    (hidle : (s.bots.getD i default).isIdle = true)
    (hok : bindOne s i = .ok s') :
    WFpre s' ∧ statusOf s' r.num = some OrderStatus.PROCESSING ∧
      ∀ m, m ≠ r.num → statusOf s' m = statusOf s m := by
  obtain ⟨hqwf, hsp, hrc, hnum, hrn, hbw, hbi, hlf⟩ := hwf
  have hbotmem : s.bots.getD i default ∈ s.bots := List.getD_mem default hi
  have hbwi : BotWF (s.bots.getD i default) := hbw.1 _ hbotmem
  obtain ⟨hnone, hnotime⟩ := idle_bot_clear hbwi hidle
  have her : (⟨r.num, r.typ, OrderStatus.PENDING⟩ : OrderEntry) ∈ s.orders :=
    hrc.1 r (by rw [hq]; exact List.mem_cons_self r rest)
  have hnd : (s.orders.map OrderEntry.num).Nodup := by
    rw [hnum.1]; exact List.nodup_range' _ _
  have hrn2 : (r.num :: (rest.map OrderRef.num ++
      s.bots.filterMap (fun b => b.currentOrder.map OrderRef.num) ++
      s.completedOrders.map OrderRef.num)).Nodup := by
    have h0 := hrn
    unfold RefsNodup at h0
    rw [hq] at h0
    simpa [List.cons_append, List.append_assoc] using h0
  obtain ⟨hrnot, htail⟩ := List.nodup_cons.mp hrn2
  have hr_rest : r.num ∉ rest.map OrderRef.num := fun hc =>
    hrnot (by simp [List.mem_append, hc])
  have hr_bots : r.num ∉ s.bots.filterMap (fun b => b.currentOrder.map OrderRef.num) :=
    fun hc => hrnot (by simp [List.mem_append, hc])
  have hr_comp : r.num ∉ s.completedOrders.map OrderRef.num := fun hc =>
    hrnot (by simp [List.mem_append, hc])
  rw [bindOne_eq hq hidle hlf] at hok
  injection hok with hok
  subst hok
  refine ⟨⟨OrderQueue.dequeue_wf hqwf, ?_, ?_, ?_, ?_, ?_, ?_, hlf⟩, ?_, ?_⟩
  · -- StatusPlacement
    intro e' he'
    rcases mem_setStatus.mp he' with ⟨e, he, rfl⟩
    by_cases hen : e.num = r.num
    · have heq : e = ⟨r.num, r.typ, OrderStatus.PENDING⟩ :=
        entry_eq_of_num_eq hnd he her (by simpa using hen)
      subst heq
      rw [if_pos rfl]
      refine ⟨?_, ?_, ?_⟩
      · constructor
        · intro hc; cases hc
        · intro hmem
          have hmem' : r ∈ rest := by
            simpa [setStatus, OrderQueue.dequeue, hq] using hmem
          exact absurd (List.mem_map_of_mem OrderRef.num hmem') hr_rest
      · constructor
        · intro _
          refine ⟨_, mem_set_self _ hi, rfl⟩
        · intro _; rfl
      · constructor
        · intro hc; cases hc
        · intro hmem
          exact absurd (List.mem_map_of_mem OrderRef.num hmem) hr_comp
    · rw [if_neg hen]
      obtain ⟨h1, h2, h3⟩ := hsp e he
      have hner : e.ref ≠ r := fun hc => hen (congrArg OrderRef.num hc)
      refine ⟨?_, ?_, ?_⟩
      · rw [h1]
        show e.ref ∈ s.orderQueue.orders ↔
          e.ref ∈ ((s.orderQueue.dequeue).2).orders
        simp [OrderQueue.dequeue, hq, List.mem_cons, hner]
      · constructor
        · intro hst
          rcases h2.mp hst with ⟨b, hb, hbo⟩
          refine ⟨b, mem_set_of_ne default hb ?_, hbo⟩
          intro hc
          rw [← hc, hnone] at hbo
          cases hbo
        · rintro ⟨b, hb, hbo⟩
          rcases List.mem_or_eq_of_mem_set hb with hb' | rfl
          · exact h2.mpr ⟨b, hb', hbo⟩
          · simp only at hbo
            injection hbo with hbo
            exact absurd (congrArg OrderRef.num hbo) (fun hc => hen hc.symm)
      · exact h3
  · -- RefsClosed
    refine ⟨?_, ?_, ?_⟩
    · intro r' hr'
      have hr'' : r' ∈ rest := by
        simpa [setStatus, OrderQueue.dequeue, hq] using hr'
      have hmem : r' ∈ s.orderQueue.orders := by
        rw [hq]; exact List.mem_cons_of_mem r hr''
      have hold := hrc.1 r' hmem
      have hne : r'.num ≠ r.num := fun hc =>
        hr_rest (hc ▸ List.mem_map_of_mem OrderRef.num hr'')
      exact mem_setStatus_of_ne hold hne
    · intro b hb r' hr'
      rcases List.mem_or_eq_of_mem_set hb with hb' | rfl
      · have hold := hrc.2.1 b hb' r' hr'
        have hne : r'.num ≠ r.num := by
          intro hc
          have hee := entry_eq_of_num_eq hnd hold her (by simpa using hc)
          injection hee with e1 e2 e3
          simp at e3
        exact mem_setStatus_of_ne hold hne
      · have hr'' : r = r' := by simpa using hr'
        subst hr''
        exact mem_setStatus_target her
    · intro r' hr'
      have hold := hrc.2.2 r' hr'
      have hne : r'.num ≠ r.num := by
        intro hc
        have hee := entry_eq_of_num_eq hnd hold her (by simpa using hc)
        injection hee with e1 e2 e3
        simp at e3
      exact mem_setStatus_of_ne hold hne
  · -- Numbering
    constructor
    · rw [setStatus_map_num, setStatus_length]
      exact hnum.1
    · rw [setStatus_length]
      exact hnum.2
  · -- RefsNodup
    have hfm : ((s.bots.set i
        { botId := (s.bots.getD i default).botId, status := BotStatus.PROCESSING,
          currentOrder := some r, processingTimeout := true }).filterMap
          (fun b => b.currentOrder.map OrderRef.num)).Perm
        (r.num :: s.bots.filterMap (fun b => b.currentOrder.map OrderRef.num)) :=
      filterMap_set_perm _ default _ _ _ _ hi (by rw [hnone]; rfl) rfl
    show ((((s.orderQueue.dequeue).2).orders.map OrderRef.num) ++ _ ++ _).Nodup
    have hq2 : ((s.orderQueue.dequeue).2).orders = rest := by
      simp [OrderQueue.dequeue, hq]
    rw [hq2]
    have hstep := (hfm.append_left (rest.map OrderRef.num)).append_right
      (s.completedOrders.map OrderRef.num)
    have hmid : (rest.map OrderRef.num ++
        (r.num :: s.bots.filterMap (fun b => b.currentOrder.map OrderRef.num)) ++
        s.completedOrders.map OrderRef.num).Perm
        (r.num :: (rest.map OrderRef.num ++
          s.bots.filterMap (fun b => b.currentOrder.map OrderRef.num) ++
          s.completedOrders.map OrderRef.num)) := by
      have h1 := @List.perm_middle _ r.num (rest.map OrderRef.num)
        (s.bots.filterMap (fun b => b.currentOrder.map OrderRef.num) ++
          s.completedOrders.map OrderRef.num)
      have e1 : rest.map OrderRef.num ++
          (r.num :: s.bots.filterMap (fun b => b.currentOrder.map OrderRef.num)) ++
          s.completedOrders.map OrderRef.num
          = rest.map OrderRef.num ++
            r.num :: (s.bots.filterMap (fun b => b.currentOrder.map OrderRef.num) ++
              s.completedOrders.map OrderRef.num) := by
        simp [List.append_assoc]
      have e2 : rest.map OrderRef.num ++
          s.bots.filterMap (fun b => b.currentOrder.map OrderRef.num) ++
          s.completedOrders.map OrderRef.num
          = rest.map OrderRef.num ++
            (s.bots.filterMap (fun b => b.currentOrder.map OrderRef.num) ++
              s.completedOrders.map OrderRef.num) := by
        rw [List.append_assoc]
      rw [e1, e2]
      exact h1
    exact ((hstep.trans hmid).nodup_iff).mpr hrn2
  · -- BotsWF
    constructor
    · intro b hb
      rcases List.mem_or_eq_of_mem_set hb with hb' | rfl
      · exact hbw.1 b hb'
      · exact ⟨by simp, by simp⟩
    · exact hbw.2
  · -- BotIds
    have hmap : (s.bots.set i
        { botId := (s.bots.getD i default).botId, status := BotStatus.PROCESSING,
          currentOrder := some r, processingTimeout := true }).map Bot.botId
        = s.bots.map Bot.botId := by
      rw [List.map_set]
      have hlen : i < (s.bots.map Bot.botId).length := by simpa using hi
      have hgetD : (s.bots.map Bot.botId).getD i 0 = (s.bots.getD i default).botId := by
        rw [List.getD_eq_getElem _ _ hlen, List.getElem_map, List.getD_eq_getElem _ _ hi]
      rw [← hgetD]
      exact set_getD_self hlen
    refine ⟨?_, ?_, ?_⟩
    · show List.Chain' (· < ·) ((s.bots.set i _).map Bot.botId)
      rw [hmap]
      exact hbi.1
    · intro b hb
      rcases List.mem_or_eq_of_mem_set hb with hb' | rfl
      · exact hbi.2.1 b hb'
      · show STARTING_BOT_ID ≤ (s.bots.getD i default).botId ∧
            (s.bots.getD i default).botId < s.nextBotId
        exact hbi.2.1 _ hbotmem
    · show s.nextBotId = STARTING_BOT_ID + (s.bots.set i _).length + s.removedBots.length
      rw [List.length_set]
      exact hbi.2.2
  · -- the bound order is PROCESSING
    exact statusOf_setStatus_self _ ⟨_, her, rfl⟩
  · -- all other statuses are unchanged
    intro m hm
    exact statusOf_setStatus_ne _ (fun hc => hm hc.symm)

theorem getD_set_ne {α : Type _} {l : List α} {i j : Nat} {x : α} (d : α) (h : i ≠ j) :
    (l.set i x).getD j d = l.getD j d := by
  by_cases hj : j < l.length
  · rw [List.getD_eq_getElem _ _ (by simpa using hj), List.getD_eq_getElem _ _ hj]
    exact List.getElem_set_ne h _
  · rw [List.getD_eq_default _ _ (by simpa using Nat.le_of_not_lt hj),
      List.getD_eq_default _ _ (Nat.le_of_not_lt hj)]

/-- Running the assignment loop over a list of (distinct, valid, idle)
bot indices succeeds, preserves well-formedness, does not touch bots
outside the list, and ends with either an empty queue or every bot that
is still idle being an untouched, originally idle bot outside the list. -/
theorem assignLoop_wf : ∀ (idx : List Nat) (s : CtrlState),
    WFpre s →
    (∀ i ∈ idx, i < s.bots.length ∧ (s.bots.getD i default).isIdle = true) →
    idx.Nodup →
    ∃ s', assignLoop s idx = .ok s' ∧ WFpre s' ∧
      s'.completedOrders = s.completedOrders ∧
      s'.removedBots = s.removedBots ∧
      s'.nextOrderNumber = s.nextOrderNumber ∧
      s'.nextBotId = s.nextBotId ∧
      s'.bots.length = s.bots.length ∧
      s'.orders.map OrderEntry.num = s.orders.map OrderEntry.num ∧
      (∀ j, j ∉ idx → s'.bots.getD j default = s.bots.getD j default) ∧
      (s'.orderQueue.orders = [] ∨
        ∀ j, j < s'.bots.length → (s'.bots.getD j default).isIdle = true →
          (s.bots.getD j default).isIdle = true ∧ j ∉ idx) := by
  intro idx
  induction idx with
  | nil =>
      intro s hwf _ _
      refine ⟨s, rfl, hwf, rfl, rfl, rfl, rfl, rfl, rfl, fun j _ => rfl, Or.inr ?_⟩
      intro j _ hj
      exact ⟨hj, by simp⟩
  | cons i rest' ih =>
      intro s hwf hvalid hnd
      by_cases hqe : s.orderQueue.isEmpty
      · have hnil : s.orderQueue.orders = [] := by
          simpa [OrderQueue.isEmpty] using hqe
        refine ⟨s, ?_, hwf, rfl, rfl, rfl, rfl, rfl, rfl, fun j _ => rfl, Or.inl hnil⟩
        simp [assignLoop, hqe]
      · match hq : s.orderQueue.orders with
        | [] => exact absurd (by simpa [OrderQueue.isEmpty, hq] using rfl) hqe
        | r :: restq =>
            obtain ⟨hi, hidle⟩ := hvalid i (List.mem_cons_self i rest')
            have hlf : s.loggerFails = false := hwf.2.2.2.2.2.2.2
            have hbind := bindOne_eq hq hidle hlf
            obtain ⟨hwf1, _, _⟩ := bindOne_wfpre hwf hq hi hidle hbind
            obtain ⟨hp1, hpbots, hpcomp, hprem, hpno, hpnb, hplf, hpmap, hplen, hpblen⟩ :=
              bindOne_props hq hidle hlf hbind
            set s₁ := setStatus
              { s with orderQueue := (s.orderQueue.dequeue).2,
                       bots := s.bots.set i
                         { botId := (s.bots.getD i default).botId,
                           status := BotStatus.PROCESSING,
                           currentOrder := some r,
                           processingTimeout := true } }
              r.num OrderStatus.PROCESSING with hs₁
            have hgetD_ne : ∀ j, j ≠ i → s₁.bots.getD j default = s.bots.getD j default := by
              intro j hj
              rw [hpbots]
              exact getD_set_ne default (fun hc => hj hc.symm)
            have hvalid' : ∀ i' ∈ rest',
                i' < s₁.bots.length ∧ (s₁.bots.getD i' default).isIdle = true := by
              intro i' hi'
              have hne : i' ≠ i := fun hc =>
                (List.nodup_cons.mp hnd).1 (hc ▸ hi')
              obtain ⟨h1, h2⟩ := hvalid i' (List.mem_cons_of_mem i hi')
              exact ⟨by rw [hpblen]; exact h1, by rw [hgetD_ne i' hne]; exact h2⟩
            obtain ⟨s'', hrun, hwf'', hc'', hr'', hno'', hnb'', hbl'', hmap'', huntouched'', hpost''⟩ :=
              ih s₁ hwf1 hvalid' (List.nodup_cons.mp hnd).2
            refine ⟨s'', ?_, hwf'', hc''.trans hpcomp, hr''.trans hprem,
              hno''.trans hpno, hnb''.trans hpnb, hbl''.trans hpblen,
              hmap''.trans hpmap, ?_, ?_⟩
            · have hne : s.orderQueue.isEmpty = false := by
                simp [OrderQueue.isEmpty, hq]
              simp only [assignLoop, hne, Bool.false_eq_true, if_neg, hbind]
              exact hrun
            · intro j hj
              have hj1 : j ∉ rest' := fun hc => hj (List.mem_cons_of_mem i hc)
              have hj2 : j ≠ i := fun hc => hj (hc ▸ List.mem_cons_self i rest')
              rw [huntouched'' j hj1, hgetD_ne j hj2]
            · rcases hpost'' with hempty | hright
              · exact Or.inl hempty
              · refine Or.inr ?_
                intro j hjlen hjidle
                obtain ⟨hidle1, hnotmem⟩ := hright j hjlen hjidle
                have hji : j ≠ i := by
                  intro hc
                  subst hc
                  rw [hpbots] at hidle1
                  have hjlt : j < s.bots.length := by
                    rw [hbl'', hpblen] at hjlen; exact hjlen
                  have : ((s.bots.set j
                      { botId := (s.bots.getD j default).botId,
                        status := BotStatus.PROCESSING,
                        currentOrder := some r,
                        processingTimeout := true }).getD j default).isIdle = true := hidle1
                  rw [List.getD_eq_getElem _ _ (by simpa using hjlt),
                    List.getElem_set_self] at this
                  simp [Bot.isIdle] at this
                refine ⟨?_, ?_⟩
                · rw [hgetD_ne j hji] at hidle1
                  exact hidle1
                · intro hc
                  rcases List.mem_cons.mp hc with hc' | hc'
                  · exact hji hc'
                  · exact hnotmem hc'

/-- The assignment pass always succeeds on a well-formed-pre state with a
working logger, restores full well-formedness (quiescence included), and
leaves the completed list, removed bots, counters, pool size and order
numbering untouched. -/
theorem assignPass_wf {s : CtrlState} (hwf : WFpre s) :
    ∃ s', assignPass s = .ok s' ∧ WF s' ∧
      s'.completedOrders = s.completedOrders ∧
      s'.removedBots = s.removedBots ∧
      s'.nextOrderNumber = s.nextOrderNumber ∧
      s'.nextBotId = s.nextBotId ∧
      s'.bots.length = s.bots.length ∧
      s'.orders.map OrderEntry.num = s.orders.map OrderEntry.num := by
  by_cases h1 : (idleIdxs s).isEmpty
  · have hsched : Sched s := by
      intro _ b hb
      rcases List.mem_iff_getElem.mp hb with ⟨j, hj, rfl⟩
      by_contra hcst
      have hidle : (s.bots.getD j default).isIdle = true := by
        rw [List.getD_eq_getElem _ _ hj]
        cases hst : (s.bots[j]).status with
        | IDLE => simp [Bot.isIdle, hst]
        | PROCESSING => exact absurd hst hcst
      have hmem : j ∈ idleIdxs s := mem_idleIdxs.mpr ⟨hj, hidle⟩
      rw [List.isEmpty_iff] at h1
      simp [h1] at hmem
    exact ⟨s, by simp [assignPass, h1], ⟨hwf, hsched⟩, rfl, rfl, rfl, rfl, rfl, rfl⟩
  · by_cases h2 : s.orderQueue.isEmpty
    · have hsched : Sched s := by
        intro hne
        exact absurd (by simpa [OrderQueue.isEmpty] using h2) hne
      exact ⟨s, by simp [assignPass, h2], ⟨hwf, hsched⟩, rfl, rfl, rfl, rfl, rfl, rfl⟩
    · have hvalid : ∀ i ∈ idleIdxs s,
          i < s.bots.length ∧ (s.bots.getD i default).isIdle = true :=
        fun i hi => mem_idleIdxs.mp hi
      obtain ⟨s', hrun, hwf', hc, hr, hno, hnb, hbl, hmap, hunt, hpost⟩ :=
        assignLoop_wf (idleIdxs s) s hwf hvalid (idleIdxs_nodup s)
      have hsched : Sched s' := by
        rcases hpost with hempty | hright
        · intro hne; exact absurd hempty hne
        · intro _ b hb
          rcases List.mem_iff_getElem.mp hb with ⟨j, hj, rfl⟩
          by_contra hcst
          have hidle' : (s'.bots.getD j default).isIdle = true := by
            rw [List.getD_eq_getElem _ _ hj]
            cases hst : (s'.bots[j]).status with
            | IDLE => simp [Bot.isIdle, hst]
            | PROCESSING => exact absurd hst hcst
          obtain ⟨hidle0, hnot⟩ := hright j hj hidle'
          have hjlen : j < s.bots.length := by rw [← hbl]; exact hj
          exact hnot (mem_idleIdxs.mpr ⟨hjlen, hidle0⟩)
      refine ⟨s', ?_, ⟨hwf', hsched⟩, hc, hr, hno, hnb, hbl, hmap⟩
      simp only [assignPass]
      rw [if_neg (by simp [h1, h2])]
      exact hrun

theorem num_lt_next {s : CtrlState} (hnum : Numbering s) {e : OrderEntry}
    (he : e ∈ s.orders) : e.num < s.nextOrderNumber := by
  have hm : e.num ∈ s.orders.map OrderEntry.num := List.mem_map_of_mem _ he
  rw [hnum.1] at hm
  rw [hnum.2]
  exact (List.mem_range'_1.mp hm).2

/-- `createOrder` on a well-formed-pre state succeeds, returns the order
numbered with the current counter, and yields a fully well-formed state. -/
theorem createOrder_wf {s : CtrlState} (hwf : WFpre s) (typ : OrderType) :
    ∃ s', createOrder s typ
        = .ok (s', { num := s.nextOrderNumber, typ := typ }) ∧ WF s' ∧
      s'.orders.map OrderEntry.num = s.orders.map OrderEntry.num ++ [s.nextOrderNumber] ∧
      s'.nextOrderNumber = s.nextOrderNumber + 1 ∧
      s'.nextBotId = s.nextBotId ∧
      s'.bots.length = s.bots.length ∧
      s'.completedOrders = s.completedOrders ∧
      s'.removedBots = s.removedBots := by
  obtain ⟨hqwf, hsp, hrc, hnum, hrn, hbw, hbi, hlf⟩ := hwf
  set n := s.nextOrderNumber with hn
  set r : OrderRef := { num := n, typ := typ } with hr
  set en : OrderEntry := { num := n, typ := typ, status := OrderStatus.PENDING } with hen
  set s₁ : CtrlState :=
    { s with nextOrderNumber := n + 1,
             orders := s.orders ++ [en],
             orderQueue := s.orderQueue.enqueue r } with hs₁
  have hqlt : ∀ r' ∈ s.orderQueue.orders, r'.num < n := fun r' hr' =>
    num_lt_next hnum (hrc.1 r' hr')
  have hblt : ∀ b ∈ s.bots, ∀ r' ∈ b.currentOrder, r'.num < n := fun b hb r' hr' =>
    num_lt_next hnum (hrc.2.1 b hb r' hr')
  have hclt : ∀ r' ∈ s.completedOrders, r'.num < n := fun r' hr' =>
    num_lt_next hnum (hrc.2.2 r' hr')
  have hwf1 : WFpre s₁ := by
    refine ⟨OrderQueue.enqueue_wf hqwf r, ?_, ?_, ?_, ?_, ?_, ?_, hlf⟩
    · -- StatusPlacement
      intro e' he'
      rcases List.mem_append.mp he' with he'' | he''
      · obtain ⟨h1, h2, h3⟩ := hsp e' he''
        have hlt : e'.num < n := num_lt_next hnum he''
        have hner : e'.ref ≠ r := by
          intro hc
          have hcc := congrArg OrderRef.num hc
          simp [hr, OrderEntry.ref] at hcc
          omega
        refine ⟨?_, h2, h3⟩
        rw [h1]
        show e'.ref ∈ s.orderQueue.orders ↔ e'.ref ∈ (s.orderQueue.enqueue r).orders
        rw [OrderQueue.mem_enqueue]
        simp [hner]
      · have heq : e' = en := by simpa using he''
        subst heq
        refine ⟨?_, ?_, ?_⟩
        · constructor
          · intro _
            show r ∈ (s.orderQueue.enqueue r).orders
            rw [OrderQueue.mem_enqueue]
            exact Or.inl rfl
          · intro _
            rfl
        · constructor
          · intro hc; cases hc
          · rintro ⟨b, hb, hbo⟩
            have hlt := hblt b hb en.ref hbo
            have hrefnum : (OrderEntry.ref en).num = n := rfl
            rw [hrefnum] at hlt
            exact absurd hlt (Nat.lt_irrefl n)
        · constructor
          · intro hc; cases hc
          · intro hmem
            have hlt := hclt en.ref hmem
            have hrefnum : (OrderEntry.ref en).num = n := rfl
            rw [hrefnum] at hlt
            exact absurd hlt (Nat.lt_irrefl n)
    · -- RefsClosed
      refine ⟨?_, ?_, ?_⟩
      · intro r' hr'
        rcases OrderQueue.mem_enqueue.mp hr' with rfl | hr''
        · exact List.mem_append.mpr (Or.inr (by simp [hen]))
        · exact List.mem_append.mpr (Or.inl (hrc.1 r' hr''))
      · intro b hb r' hr'
        exact List.mem_append.mpr (Or.inl (hrc.2.1 b hb r' hr'))
      · intro r' hr'
        exact List.mem_append.mpr (Or.inl (hrc.2.2 r' hr'))
    · -- Numbering
      constructor
      · show (s.orders ++ [en]).map OrderEntry.num
            = List.range' STARTING_ORDER_NUMBER (s.orders ++ [en]).length
        rw [List.map_append, hnum.1]
        simp only [List.length_append, List.length_singleton]
        rw [List.range'_concat]
        have hverify : en.num = STARTING_ORDER_NUMBER + 1 * s.orders.length := by
          show n = STARTING_ORDER_NUMBER + 1 * s.orders.length
          rw [hn, hnum.2]
          omega
        rw [List.map_singleton, hverify]
      · show n + 1 = STARTING_ORDER_NUMBER + (s.orders ++ [en]).length
        simp only [List.length_append, List.length_singleton]
        rw [hn, hnum.2]
        omega
    · -- RefsNodup
      have hqperm : ((s.orderQueue.enqueue r).orders.map OrderRef.num).Perm
          (n :: s.orderQueue.orders.map OrderRef.num) := by
        have := (s.orderQueue.enqueue_perm r).map OrderRef.num
        simpa [hr] using this
      have hperm2 : ((s.orderQueue.enqueue r).orders.map OrderRef.num ++
          s.bots.filterMap (fun b => b.currentOrder.map OrderRef.num) ++
          s.completedOrders.map OrderRef.num).Perm
          (n :: (s.orderQueue.orders.map OrderRef.num ++
            s.bots.filterMap (fun b => b.currentOrder.map OrderRef.num) ++
            s.completedOrders.map OrderRef.num)) := by
        have h1 := (hqperm.append_right
          (s.bots.filterMap (fun b => b.currentOrder.map OrderRef.num))).append_right
          (s.completedOrders.map OrderRef.num)
        simpa [List.cons_append] using h1
      show ((s.orderQueue.enqueue r).orders.map OrderRef.num ++
          s.bots.filterMap (fun b => b.currentOrder.map OrderRef.num) ++
          s.completedOrders.map OrderRef.num).Nodup
      rw [hperm2.nodup_iff, List.nodup_cons]
      refine ⟨?_, hrn⟩
      intro hc
      rcases List.mem_append.mp hc with hc' | hc'
      · rcases List.mem_append.mp hc' with hc'' | hc''
        · rcases List.mem_map.mp hc'' with ⟨r', hr', hre⟩
          have := hqlt r' hr'
          omega
        · rcases List.mem_filterMap.mp hc'' with ⟨b, hb, hbo⟩
          rcases Option.map_eq_some'.mp hbo with ⟨r', hr', hre⟩
          have := hblt b hb r' (by rw [hr']; rfl)
          omega
      · rcases List.mem_map.mp hc' with ⟨r', hr', hre⟩
        have := hclt r' hr'
        omega
    · -- BotsWF
      exact hbw
    · -- BotIds
      exact hbi
  obtain ⟨s₂, hpass, hwf2, hc2, hr2, hno2, hnb2, hbl2, hmap2⟩ := assignPass_wf hwf1
  refine ⟨s₂, ?_, hwf2, ?_, ?_, ?_, ?_, ?_, ?_⟩
  · have hlog : logCall s₁ = .ok s₁ := by
      rw [hs₁]
      simp [logCall, hlf]
    show createOrder s typ = _
    unfold createOrder
    dsimp only
    rw [← hn, ← hr, ← hen, ← hs₁, hlog]
    dsimp only
    rw [hpass]
  · rw [hmap2]
    show (s.orders ++ [en]).map OrderEntry.num = s.orders.map OrderEntry.num ++ [n]
    simp [hen]
  · rw [hno2]
  · rw [hnb2]
  · rw [hbl2]
  · rw [hc2]
  · rw [hr2]

theorem bot_idle_of_no_order {s : CtrlState} (hbw : BotsWF s) {b : Bot}
    (hb : b ∈ s.bots) (hco : b.currentOrder = none) :
    b.status = BotStatus.IDLE ∧ b.processingTimeout = false := by
  have hw := hbw.1 b hb
  have hst : b.status = BotStatus.IDLE := by
    cases hst : b.status with
    | IDLE => rfl
    | PROCESSING =>
        have := hw.1.mp hst
        rw [hco] at this
        cases this
  refine ⟨hst, ?_⟩
  cases ht : b.processingTimeout with
  | false => rfl
  | true =>
      have := hw.2.mpr ht
      rw [hst] at this
      cases this

/-- `removeBot` on a fully well-formed state succeeds and preserves full
well-formedness; order numbering and both counters are untouched. -/
theorem removeBot_wf {s : CtrlState} (hwf : WF s) :
    ∃ s' res, removeBot s = .ok (s', res) ∧ WF s' ∧
      s'.orders.map OrderEntry.num = s.orders.map OrderEntry.num ∧
      s'.nextOrderNumber = s.nextOrderNumber ∧
      s'.nextBotId = s.nextBotId ∧
      s'.bots.length + s'.removedBots.length
        = s.bots.length + s.removedBots.length := by
  obtain ⟨⟨hqwf, hsp, hrc, hnum, hrn, hbw, hbi, hlf⟩, hsched⟩ := hwf
  cases hlast : s.bots.getLast? with
  | none =>
      refine ⟨s, none, ?_, ⟨⟨hqwf, hsp, hrc, hnum, hrn, hbw, hbi, hlf⟩, hsched⟩,
        rfl, rfl, rfl, rfl⟩
      unfold removeBot
      rw [hlast]
  | some b =>
      have hne : s.bots ≠ [] := by
        intro hc
        rw [hc] at hlast
        cases hlast
      have hbmem : b ∈ s.bots := by
        have := List.getLast?_eq_getLast s.bots hne
        rw [this] at hlast
        injection hlast with hlast
        rw [← hlast]
        exact List.getLast_mem hne
      have hsplit : s.bots.dropLast ++ [b] = s.bots := by
        have h0 := List.dropLast_append_getLast hne
        have hgl := List.getLast?_eq_getLast s.bots hne
        rw [hgl] at hlast
        injection hlast with hlast
        rw [hlast] at h0
        exact h0
      have hlen1 : 1 ≤ s.bots.length := by
        cases hl : s.bots with
        | nil => exact absurd hl hne
        | cons x xs => simp [hl]
      have hsub : s.bots.dropLast.Sublist s.bots := List.dropLast_sublist s.bots
      have hchain' : List.Chain' (· < ·) (s.bots.dropLast.map Bot.botId) := by
        rw [List.dropLast_eq_take, List.map_take]
        exact hbi.1.take _
      cases hco : b.currentOrder with
      | none =>
          obtain ⟨hbidle, hbtime⟩ := bot_idle_of_no_order ⟨hbw.1, hbw.2⟩ hbmem hco
          set b₂ : Bot := { b with processingTimeout := false } with hb₂
          have hstop : b.stopProcessing = (none, b₂) := by
            simp [Bot.stopProcessing, hco, hb₂]
          set s₁ : CtrlState :=
            { s with bots := s.bots.dropLast,
                     removedBots := s.removedBots ++ [b₂] } with hs₁
          have hwf1 : WF s₁ := by
            refine ⟨⟨hqwf, ?_, ?_, hnum, ?_, ?_, ?_, hlf⟩, ?_⟩
            · -- StatusPlacement
              intro e he
              obtain ⟨h1, h2, h3⟩ := hsp e he
              refine ⟨h1, ?_, h3⟩
              rw [h2]
              constructor
              · rintro ⟨b₀, hb₀, hbo⟩
                rw [← hsplit] at hb₀
                rcases List.mem_append.mp hb₀ with hb₀' | hb₀'
                · exact ⟨b₀, hb₀', hbo⟩
                · have hbb : b₀ = b := by simpa using hb₀'
                  subst hbb
                  rw [hco] at hbo
                  cases hbo
              · rintro ⟨b₀, hb₀, hbo⟩
                exact ⟨b₀, hsub.mem hb₀, hbo⟩
            · -- RefsClosed
              exact ⟨hrc.1, fun b₀ hb₀ => hrc.2.1 b₀ (hsub.mem hb₀), hrc.2.2⟩
            · -- RefsNodup
              have hs : ((s.orderQueue.orders.map OrderRef.num) ++
                  s.bots.dropLast.filterMap (fun b => b.currentOrder.map OrderRef.num) ++
                  s.completedOrders.map OrderRef.num).Sublist
                  ((s.orderQueue.orders.map OrderRef.num) ++
                  s.bots.filterMap (fun b => b.currentOrder.map OrderRef.num) ++
                  s.completedOrders.map OrderRef.num) :=
                ((List.Sublist.refl _).append
                  (List.Sublist.filterMap _ hsub)).append (List.Sublist.refl _)
              exact hs.nodup hrn
            · -- BotsWF
              refine ⟨fun b₀ hb₀ => hbw.1 b₀ (hsub.mem hb₀), ?_⟩
              intro b₀ hb₀
              rcases List.mem_append.mp hb₀ with hb₀' | hb₀'
              · exact hbw.2 b₀ hb₀'
              · have hbb : b₀ = b₂ := by simpa using hb₀'
                subst hbb
                exact ⟨hbidle, hco, rfl⟩
            · -- BotIds
              refine ⟨hchain', ?_, ?_⟩
              · exact fun b₀ hb₀ => hbi.2.1 b₀ (hsub.mem hb₀)
              · show s.nextBotId = STARTING_BOT_ID + s.bots.dropLast.length +
                  (s.removedBots ++ [b₂]).length
                rw [List.length_dropLast, List.length_append, List.length_singleton,
                  hbi.2.2]
                omega
            · -- Sched
              intro hne' b₀ hb₀
              exact hsched hne' b₀ (hsub.mem hb₀)
          refine ⟨s₁, some b₂, ?_, hwf1, rfl, rfl, rfl, ?_⟩
          · unfold removeBot
            rw [hlast]
            dsimp only
            rw [hstop]
            dsimp only
            rw [← hs₁, logCall, if_neg (by rw [hs₁]; simp [hlf])]
          · show s.bots.dropLast.length + (s.removedBots ++ [b₂]).length
              = s.bots.length + s.removedBots.length
            rw [List.length_dropLast, List.length_append, List.length_singleton]
            omega
      | some rr =>
          have hbproc : b.status = BotStatus.PROCESSING :=
            (hbw.1 b hbmem).1.mpr (by simp [hco])
          have herr : (⟨rr.num, rr.typ, OrderStatus.PROCESSING⟩ : OrderEntry) ∈ s.orders :=
            hrc.2.1 b hbmem rr hco
          have hnd : (s.orders.map OrderEntry.num).Nodup := by
            rw [hnum.1]; exact List.nodup_range' _ _
          have hbn : s.bots.filterMap (fun b => b.currentOrder.map OrderRef.num)
              = s.bots.dropLast.filterMap (fun b => b.currentOrder.map OrderRef.num)
                ++ [rr.num] := by
            conv_lhs => rw [← hsplit]
            rw [List.filterMap_append]
            simp [hco]
          have hrearr : ((s.orderQueue.orders.map OrderRef.num) ++
              (s.bots.dropLast.filterMap (fun b => b.currentOrder.map OrderRef.num)
                ++ [rr.num]) ++
              s.completedOrders.map OrderRef.num).Perm
              (rr.num :: ((s.orderQueue.orders.map OrderRef.num) ++
                s.bots.dropLast.filterMap (fun b => b.currentOrder.map OrderRef.num) ++
                s.completedOrders.map OrderRef.num)) := by
            have h1 := @List.perm_middle _ rr.num
              ((s.orderQueue.orders.map OrderRef.num) ++
                s.bots.dropLast.filterMap (fun b => b.currentOrder.map OrderRef.num))
              (s.completedOrders.map OrderRef.num)
            have e1 : (s.orderQueue.orders.map OrderRef.num) ++
                (s.bots.dropLast.filterMap (fun b => b.currentOrder.map OrderRef.num)
                  ++ [rr.num]) ++
                s.completedOrders.map OrderRef.num
                = ((s.orderQueue.orders.map OrderRef.num) ++
                    s.bots.dropLast.filterMap (fun b => b.currentOrder.map OrderRef.num)) ++
                  rr.num :: s.completedOrders.map OrderRef.num := by
              simp [List.append_assoc]
            have e2 : (s.orderQueue.orders.map OrderRef.num) ++
                s.bots.dropLast.filterMap (fun b => b.currentOrder.map OrderRef.num) ++
                s.completedOrders.map OrderRef.num
                = ((s.orderQueue.orders.map OrderRef.num) ++
                    s.bots.dropLast.filterMap (fun b => b.currentOrder.map OrderRef.num)) ++
                  s.completedOrders.map OrderRef.num := by
              rw [List.append_assoc]
            rw [e1, e2]
            exact h1
          have hrn2 : (rr.num :: ((s.orderQueue.orders.map OrderRef.num) ++
              s.bots.dropLast.filterMap (fun b => b.currentOrder.map OrderRef.num) ++
              s.completedOrders.map OrderRef.num)).Nodup := by
            rw [← hrearr.nodup_iff]
            rw [← hbn]
            exact hrn
          obtain ⟨hrrnot, htail⟩ := List.nodup_cons.mp hrn2
          have hrr_q : rr.num ∉ s.orderQueue.orders.map OrderRef.num := fun hc =>
            hrrnot (by simp [List.mem_append, hc])
          have hrr_b : rr.num ∉ s.bots.dropLast.filterMap
              (fun b => b.currentOrder.map OrderRef.num) := fun hc =>
            hrrnot (by simp [List.mem_append, hc])
          have hrr_c : rr.num ∉ s.completedOrders.map OrderRef.num := fun hc =>
            hrrnot (by simp [List.mem_append, hc])
          set b₂ : Bot := { botId := b.botId, status := BotStatus.IDLE, currentOrder := none, processingTimeout := false } with hb₂
          set s₂' : CtrlState := setStatus { s with bots := s.bots.dropLast, removedBots := s.removedBots ++ [b₂] } rr.num OrderStatus.PENDING with hs₂'
          set s₃ : CtrlState := { s₂' with orderQueue := s₂'.orderQueue.enqueue rr } with hs₃
          have hstop : b.stopProcessing = (some rr, b₂) := by
            simp [Bot.stopProcessing, hco, hb₂]
          have hwf3 : WFpre s₃ := by
            refine ⟨OrderQueue.enqueue_wf hqwf rr, ?_, ?_, ?_, ?_, ?_, ?_, hlf⟩
            · -- StatusPlacement
              intro e' he'
              rcases mem_setStatus.mp he' with ⟨e, he, rfl⟩
              by_cases hen : e.num = rr.num
              · have heq : e = ⟨rr.num, rr.typ, OrderStatus.PROCESSING⟩ :=
                  entry_eq_of_num_eq hnd he herr (by simpa using hen)
                subst heq
                rw [if_pos rfl]
                refine ⟨?_, ?_, ?_⟩
                · constructor
                  · intro _
                    show rr ∈ (s.orderQueue.enqueue rr).orders
                    rw [OrderQueue.mem_enqueue]
                    exact Or.inl rfl
                  · intro _
                    rfl
                · constructor
                  · intro hc; cases hc
                  · rintro ⟨b₀, hb₀, hbo⟩
                    have : rr.num ∈ s.bots.dropLast.filterMap
                        (fun b => b.currentOrder.map OrderRef.num) :=
                      List.mem_filterMap.mpr ⟨b₀, hb₀, by rw [hbo]; rfl⟩
                    exact absurd this hrr_b
                · constructor
                  · intro hc; cases hc
                  · intro hmem
                    exact absurd (List.mem_map_of_mem OrderRef.num hmem) hrr_c
              · rw [if_neg hen]
                obtain ⟨h1, h2, h3⟩ := hsp e he
                have hner : e.ref ≠ rr := fun hc => hen (congrArg OrderRef.num hc)
                refine ⟨?_, ?_, h3⟩
                · rw [h1]
                  show e.ref ∈ s.orderQueue.orders ↔
                    e.ref ∈ (s.orderQueue.enqueue rr).orders
                  rw [OrderQueue.mem_enqueue]
                  simp [hner]
                · rw [h2]
                  constructor
                  · rintro ⟨b₀, hb₀, hbo⟩
                    rw [← hsplit] at hb₀
                    rcases List.mem_append.mp hb₀ with hb₀' | hb₀'
                    · exact ⟨b₀, hb₀', hbo⟩
                    · have hbb : b₀ = b := by simpa using hb₀'
                      subst hbb
                      rw [hco] at hbo
                      injection hbo with hbo
                      exact absurd (congrArg OrderRef.num hbo).symm hen
                  · rintro ⟨b₀, hb₀, hbo⟩
                    exact ⟨b₀, hsub.mem hb₀, hbo⟩
            · -- RefsClosed
              refine ⟨?_, ?_, ?_⟩
              · intro r' hr'
                rcases OrderQueue.mem_enqueue.mp hr' with rfl | hr''
                · exact mem_setStatus_target herr
                · have hold := hrc.1 r' hr''
                  have hne' : r'.num ≠ rr.num := fun hc =>
                    hrr_q (hc ▸ List.mem_map_of_mem OrderRef.num hr'')
                  exact mem_setStatus_of_ne hold hne'
              · intro b₀ hb₀ r' hr'
                have hold := hrc.2.1 b₀ (hsub.mem hb₀) r' hr'
                have hne' : r'.num ≠ rr.num := fun hc => by
                  apply hrr_b
                  rw [← hc]
                  exact List.mem_filterMap.mpr ⟨b₀, hb₀, by rw [hr']; rfl⟩
                exact mem_setStatus_of_ne hold hne'
              · intro r' hr'
                have hold := hrc.2.2 r' hr'
                have hne' : r'.num ≠ rr.num := fun hc =>
                  hrr_c (hc ▸ List.mem_map_of_mem OrderRef.num hr')
                exact mem_setStatus_of_ne hold hne'
            · -- Numbering
              constructor
              · show (setStatus _ rr.num OrderStatus.PENDING).orders.map OrderEntry.num
                  = List.range' STARTING_ORDER_NUMBER
                    (setStatus _ rr.num OrderStatus.PENDING).orders.length
                rw [setStatus_map_num, setStatus_length]
                exact hnum.1
              · show s.nextOrderNumber = STARTING_ORDER_NUMBER +
                  (setStatus _ rr.num OrderStatus.PENDING).orders.length
                rw [setStatus_length]
                exact hnum.2
            · -- RefsNodup
              have hqperm : ((s.orderQueue.enqueue rr).orders.map OrderRef.num).Perm
                  (rr.num :: s.orderQueue.orders.map OrderRef.num) :=
                (s.orderQueue.enqueue_perm rr).map OrderRef.num
              have hall : ((s.orderQueue.enqueue rr).orders.map OrderRef.num ++
                  s.bots.dropLast.filterMap (fun b => b.currentOrder.map OrderRef.num) ++
                  s.completedOrders.map OrderRef.num).Perm
                  (rr.num :: (s.orderQueue.orders.map OrderRef.num ++
                    s.bots.dropLast.filterMap (fun b => b.currentOrder.map OrderRef.num) ++
                    s.completedOrders.map OrderRef.num)) := by
                have h1 := (hqperm.append_right
                  (s.bots.dropLast.filterMap (fun b => b.currentOrder.map OrderRef.num))).append_right
                  (s.completedOrders.map OrderRef.num)
                simpa [List.cons_append] using h1
              show ((s.orderQueue.enqueue rr).orders.map OrderRef.num ++
                  s.bots.dropLast.filterMap (fun b => b.currentOrder.map OrderRef.num) ++
                  s.completedOrders.map OrderRef.num).Nodup
              rw [hall.nodup_iff]
              exact hrn2
            · -- BotsWF
              refine ⟨fun b₀ hb₀ => hbw.1 b₀ (hsub.mem hb₀), ?_⟩
              intro b₀ hb₀
              rcases List.mem_append.mp hb₀ with hb₀' | hb₀'
              · exact hbw.2 b₀ hb₀'
              · have hbb : b₀ = b₂ := by simpa using hb₀'
                subst hbb
                exact ⟨rfl, rfl, rfl⟩
            · -- BotIds
              refine ⟨hchain', ?_, ?_⟩
              · exact fun b₀ hb₀ => hbi.2.1 b₀ (hsub.mem hb₀)
              · show s.nextBotId = STARTING_BOT_ID + s.bots.dropLast.length +
                  (s.removedBots ++ [b₂]).length
                rw [List.length_dropLast, List.length_append, List.length_singleton,
                  hbi.2.2]
                omega
          obtain ⟨s₅, hpass, hwf5, hc5, hr5, hno5, hnb5, hbl5, hmap5⟩ := assignPass_wf hwf3
          refine ⟨s₅, some b₂, ?_, hwf5, ?_, ?_, ?_, ?_⟩
          · show removeBot s = .ok (s₅, some b₂)
            unfold removeBot
            rw [hlast]
            dsimp only
            rw [hstop]
            dsimp only
            rw [← hs₂', ← hs₃]
            rw [logCall, if_neg (by rw [hs₃, hs₂']; simp [setStatus, hlf])]
            dsimp only
            rw [hpass]
          · rw [hmap5]
            show s₂'.orders.map OrderEntry.num = s.orders.map OrderEntry.num
            rw [hs₂']
            exact setStatus_map_num _ _ _
          · rw [hno5]
            rfl
          · rw [hnb5]
            rfl
          · show s₅.bots.length + s₅.removedBots.length = _
            rw [hbl5, hr5]
            show s.bots.dropLast.length + (s.removedBots ++ [b₂]).length = _
            rw [List.length_dropLast, List.length_append, List.length_singleton]
            omega

/-- `addBot` on a well-formed-pre state succeeds, returns a fresh IDLE
bot carrying the current id counter, and yields a fully well-formed
state. -/
theorem addBot_wf {s : CtrlState} (hwf : WFpre s) :
    ∃ s', addBot s = .ok (s', { botId := s.nextBotId, status := BotStatus.IDLE, currentOrder := none, processingTimeout := false }) ∧ WF s' ∧
      s'.orders.map OrderEntry.num = s.orders.map OrderEntry.num ∧
      s'.nextOrderNumber = s.nextOrderNumber ∧
      s'.nextBotId = s.nextBotId + 1 ∧
      s'.bots.length = s.bots.length + 1 ∧
      s'.completedOrders = s.completedOrders ∧
      s'.removedBots = s.removedBots := by
  obtain ⟨hqwf, hsp, hrc, hnum, hrn, hbw, hbi, hlf⟩ := hwf
  set nb : Bot := { botId := s.nextBotId, status := BotStatus.IDLE, currentOrder := none, processingTimeout := false } with hnb
  set s₁ : CtrlState := { s with nextBotId := s.nextBotId + 1, bots := s.bots ++ [nb] } with hs₁
  have hfm : (s.bots ++ [nb]).filterMap (fun b => b.currentOrder.map OrderRef.num)
      = s.bots.filterMap (fun b => b.currentOrder.map OrderRef.num) := by
    rw [List.filterMap_append]
    simp [hnb]
  have hwf1 : WFpre s₁ := by
    refine ⟨hqwf, ?_, ?_, hnum, ?_, ?_, ?_, hlf⟩
    · -- StatusPlacement
      intro e he
      obtain ⟨h1, h2, h3⟩ := hsp e he
      refine ⟨h1, ?_, h3⟩
      rw [h2]
      constructor
      · rintro ⟨b₀, hb₀, hbo⟩
        exact ⟨b₀, List.mem_append.mpr (Or.inl hb₀), hbo⟩
      · rintro ⟨b₀, hb₀, hbo⟩
        rcases List.mem_append.mp hb₀ with hb₀' | hb₀'
        · exact ⟨b₀, hb₀', hbo⟩
        · have hbb : b₀ = nb := by simpa using hb₀'
          subst hbb
          cases hbo
    · -- RefsClosed
      refine ⟨hrc.1, ?_, hrc.2.2⟩
      intro b₀ hb₀ r' hr'
      rcases List.mem_append.mp hb₀ with hb₀' | hb₀'
      · exact hrc.2.1 b₀ hb₀' r' hr'
      · have hbb : b₀ = nb := by simpa using hb₀'
        subst hbb
        cases hr'
    · -- RefsNodup
      show ((s.orderQueue.orders.map OrderRef.num) ++
          (s.bots ++ [nb]).filterMap (fun b => b.currentOrder.map OrderRef.num) ++
          s.completedOrders.map OrderRef.num).Nodup
      rw [hfm]
      exact hrn
    · -- BotsWF
      refine ⟨?_, hbw.2⟩
      intro b₀ hb₀
      rcases List.mem_append.mp hb₀ with hb₀' | hb₀'
      · exact hbw.1 b₀ hb₀'
      · have hbb : b₀ = nb := by simpa using hb₀'
        subst hbb
        exact ⟨by simp [hnb], by simp [hnb]⟩
    · -- BotIds
      refine ⟨?_, ?_, ?_⟩
      · show List.Chain' (· < ·) ((s.bots ++ [nb]).map Bot.botId)
        rw [List.map_append]
        refine hbi.1.append (by simp) ?_
        intro x hx y hy
        have hx' : x ∈ s.bots.map Bot.botId := List.mem_of_mem_getLast? hx
        rcases List.mem_map.mp hx' with ⟨b₀, hb₀, rfl⟩
        have hy' : y = s.nextBotId := by
          simp [hnb] at hy
          exact hy.symm
        subst hy'
        exact (hbi.2.1 b₀ hb₀).2
      · intro b₀ hb₀
        rcases List.mem_append.mp hb₀ with hb₀' | hb₀'
        · have hbd := hbi.2.1 b₀ hb₀'
          show STARTING_BOT_ID ≤ b₀.botId ∧ b₀.botId < s.nextBotId + 1
          omega
        · have hbb : b₀ = nb := by simpa using hb₀'
          subst hbb
          show STARTING_BOT_ID ≤ s.nextBotId ∧ s.nextBotId < s.nextBotId + 1
          have := hbi.2.2
          constructor
          · omega
          · omega
      · show s.nextBotId + 1
            = STARTING_BOT_ID + (s.bots ++ [nb]).length + s.removedBots.length
        rw [List.length_append, List.length_singleton, hbi.2.2]
        omega
  obtain ⟨s₂, hpass, hwf2, hc2, hr2, hno2, hnb2, hbl2, hmap2⟩ := assignPass_wf hwf1
  refine ⟨s₂, ?_, hwf2, ?_, ?_, ?_, ?_, ?_, ?_⟩
  · show addBot s = _
    unfold addBot
    dsimp only
    rw [← hnb, ← hs₁]
    rw [logCall, if_neg (by rw [hs₁]; simp [hlf])]
    dsimp only
    rw [hpass]
  · rw [hmap2]
  · rw [hno2]
  · rw [hnb2]
  · rw [hbl2]
    show (s.bots ++ [nb]).length = s.bots.length + 1
    simp
  · rw [hc2]
  · rw [hr2]

/-- Replacing a slot whose image under `f` is `some y` by one whose image
is empty removes `y` from the `filterMap`, up to permutation. -/
theorem filterMap_set_perm_rev {α β : Type _} (f : α → Option β) (d : α) :
    ∀ (l : List α) (i : Nat) (x : α) (y : β), i < l.length →
      f (l.getD i d) = some y → f x = none →
      (l.filterMap f).Perm (y :: (l.set i x).filterMap f) := by
  intro l
  induction l with
  | nil => intro i x y hi; simp at hi
  | cons a t ih =>
      intro i x y hi hsome hx
      match i with
      | 0 =>
          simp only [List.getD_cons_zero] at hsome
          simp [List.set, List.filterMap_cons, hsome, hx]
      | Nat.succ i' =>
          simp only [List.getD_cons_succ] at hsome
          have hi' : i' < t.length := by simpa using hi
          have hperm := ih i' x y hi' hsome hx
          match hfa : f a with
          | none => simpa [List.set, List.filterMap_cons, hfa] using hperm
          | some z =>
              simp only [List.set, List.filterMap_cons, hfa]
              exact (hperm.cons z).trans (List.Perm.swap y z _)

/-- A pool bot's timer firing on a fully well-formed state succeeds and
preserves full well-formedness; the completed order is appended to the
completed list, and numbering, counters and the removed list are
untouched. -/
theorem fireTimer_wf {s : CtrlState} {i : Nat} {rr : OrderRef} (hwf : WF s)
    (hi : i < s.bots.length)
    (hco : (s.bots.getD i default).currentOrder = some rr) :
    ∃ s', fireTimer s i = .ok s' ∧ WF s' ∧
      s'.completedOrders = s.completedOrders ++ [rr] ∧
      s'.orders.map OrderEntry.num = s.orders.map OrderEntry.num ∧
      s'.nextOrderNumber = s.nextOrderNumber ∧
      s'.nextBotId = s.nextBotId ∧
      s'.bots.length = s.bots.length ∧
      s'.removedBots = s.removedBots ∧
      (∃ smid, assignPass smid = .ok s' ∧
        smid.bots = s.bots.set i
          { botId := (s.bots.getD i default).botId, status := BotStatus.IDLE,
            currentOrder := none, processingTimeout := false } ∧
        smid.orderQueue = s.orderQueue ∧
        smid.loggerFails = false ∧
        statusOf smid rr.num = some OrderStatus.COMPLETE ∧
        (∀ n, n ≠ rr.num → statusOf smid n = statusOf s n) ∧
        (smid.orderQueue.orders.map OrderRef.num).Nodup ∧
        (∀ r' ∈ smid.orderQueue.orders, ∃ e ∈ smid.orders, e.num = r'.num) ∧
        rr.num ∉ smid.orderQueue.orders.map OrderRef.num) := by
  obtain ⟨⟨hqwf, hsp, hrc, hnum, hrn, hbw, hbi, hlf⟩, hsched⟩ := hwf
  have hbmem : s.bots.getD i default ∈ s.bots := List.getD_mem default hi
  have herr : (⟨rr.num, rr.typ, OrderStatus.PROCESSING⟩ : OrderEntry) ∈ s.orders :=
    hrc.2.1 _ hbmem rr hco
  have hnd : (s.orders.map OrderEntry.num).Nodup := by
    rw [hnum.1]; exact List.nodup_range' _ _
  set b₂ : Bot := { botId := (s.bots.getD i default).botId, status := BotStatus.IDLE, currentOrder := none, processingTimeout := false } with hb₂
  have hcompl : (s.bots.getD i default).completeOrder = (some rr, b₂) := by
    unfold Bot.completeOrder
    dsimp only
    rw [hco]
  have hbnperm : (s.bots.filterMap (fun b => b.currentOrder.map OrderRef.num)).Perm
      (rr.num :: (s.bots.set i b₂).filterMap (fun b => b.currentOrder.map OrderRef.num)) :=
    filterMap_set_perm_rev _ default _ _ _ _ hi (by rw [hco]; rfl) rfl
  have hall : ((s.orderQueue.orders.map OrderRef.num) ++
      s.bots.filterMap (fun b => b.currentOrder.map OrderRef.num) ++
      s.completedOrders.map OrderRef.num).Perm
      (rr.num :: ((s.orderQueue.orders.map OrderRef.num) ++
        (s.bots.set i b₂).filterMap (fun b => b.currentOrder.map OrderRef.num) ++
        s.completedOrders.map OrderRef.num)) := by
    have h1 := (hbnperm.append_left
      (s.orderQueue.orders.map OrderRef.num)).append_right
      (s.completedOrders.map OrderRef.num)
    have h2 := @List.perm_middle _ rr.num
      (s.orderQueue.orders.map OrderRef.num)
      ((s.bots.set i b₂).filterMap (fun b => b.currentOrder.map OrderRef.num) ++
        s.completedOrders.map OrderRef.num)
    have e1 : (s.orderQueue.orders.map OrderRef.num ++
        (rr.num :: (s.bots.set i b₂).filterMap (fun b => b.currentOrder.map OrderRef.num))) ++
        s.completedOrders.map OrderRef.num
        = s.orderQueue.orders.map OrderRef.num ++
          rr.num :: ((s.bots.set i b₂).filterMap (fun b => b.currentOrder.map OrderRef.num) ++
            s.completedOrders.map OrderRef.num) := by
      simp [List.append_assoc]
    have e2 : rr.num :: (s.orderQueue.orders.map OrderRef.num ++
        ((s.bots.set i b₂).filterMap (fun b => b.currentOrder.map OrderRef.num) ++
          s.completedOrders.map OrderRef.num))
        = rr.num :: (s.orderQueue.orders.map OrderRef.num ++
          (s.bots.set i b₂).filterMap (fun b => b.currentOrder.map OrderRef.num) ++
          s.completedOrders.map OrderRef.num) := by
      simp [List.append_assoc]
    have step1 := h1
    rw [e1] at step1
    have step2 := step1.trans h2
    rw [e2] at step2
    exact step2
  have hrn2 : (rr.num :: ((s.orderQueue.orders.map OrderRef.num) ++
      (s.bots.set i b₂).filterMap (fun b => b.currentOrder.map OrderRef.num) ++
      s.completedOrders.map OrderRef.num)).Nodup :=
    (hall.nodup_iff).mp hrn
  obtain ⟨hrrnot, htail⟩ := List.nodup_cons.mp hrn2
  have hrr_q : rr.num ∉ s.orderQueue.orders.map OrderRef.num := fun hc =>
    hrrnot (by simp [List.mem_append, hc])
  have hrr_b : rr.num ∉ (s.bots.set i b₂).filterMap
      (fun b => b.currentOrder.map OrderRef.num) := fun hc =>
    hrrnot (by simp [List.mem_append, hc])
  have hrr_c : rr.num ∉ s.completedOrders.map OrderRef.num := fun hc =>
    hrrnot (by simp [List.mem_append, hc])
  set s₂' : CtrlState := setStatus { s with bots := s.bots.set i b₂ } rr.num OrderStatus.COMPLETE with hs₂'
  set s₃ : CtrlState := { s₂' with completedOrders := s₂'.completedOrders ++ [rr] } with hs₃
  have hwf3 : WFpre s₃ := by
    refine ⟨hqwf, ?_, ?_, ?_, ?_, ?_, ?_, hlf⟩
    · -- StatusPlacement
      intro e' he'
      rcases mem_setStatus.mp he' with ⟨e, he, rfl⟩
      by_cases hen : e.num = rr.num
      · have heq : e = ⟨rr.num, rr.typ, OrderStatus.PROCESSING⟩ :=
          entry_eq_of_num_eq hnd he herr (by simpa using hen)
        subst heq
        rw [if_pos rfl]
        refine ⟨?_, ?_, ?_⟩
        · constructor
          · intro hc; cases hc
          · intro hmem
            exact absurd (List.mem_map_of_mem OrderRef.num hmem) hrr_q
        · constructor
          · intro hc; cases hc
          · rintro ⟨b₀, hb₀, hbo⟩
            have hm : rr.num ∈ (s.bots.set i b₂).filterMap
                (fun b => b.currentOrder.map OrderRef.num) :=
              List.mem_filterMap.mpr ⟨b₀, hb₀, by rw [hbo]; rfl⟩
            exact absurd hm hrr_b
        · constructor
          · intro _
            show rr ∈ s.completedOrders ++ [rr]
            exact List.mem_append.mpr (Or.inr (by simp))
          · intro _
            rfl
      · rw [if_neg hen]
        obtain ⟨h1, h2, h3⟩ := hsp e he
        have hner : e.ref ≠ rr := fun hc => hen (congrArg OrderRef.num hc)
        refine ⟨h1, ?_, ?_⟩
        · rw [h2]
          constructor
          · rintro ⟨b₀, hb₀, hbo⟩
            refine ⟨b₀, mem_set_of_ne default hb₀ ?_, hbo⟩
            intro hc
            rw [← hc, hco] at hbo
            injection hbo with hbo
            exact hner hbo.symm
          · rintro ⟨b₀, hb₀, hbo⟩
            rcases List.mem_or_eq_of_mem_set hb₀ with hb₀' | rfl
            · exact ⟨b₀, hb₀', hbo⟩
            · rw [hb₂] at hbo
              cases hbo
        · rw [h3]
          show e.ref ∈ s.completedOrders ↔ e.ref ∈ s.completedOrders ++ [rr]
          rw [List.mem_append]
          simp [List.mem_singleton, hner]
    · -- RefsClosed
      refine ⟨?_, ?_, ?_⟩
      · intro r' hr'
        have hold := hrc.1 r' hr'
        have hne' : r'.num ≠ rr.num := fun hc =>
          hrr_q (hc ▸ List.mem_map_of_mem OrderRef.num hr')
        exact mem_setStatus_of_ne hold hne'
      · intro b₀ hb₀ r' hr'
        have hne' : r'.num ≠ rr.num := fun hc => by
          apply hrr_b
          rw [← hc]
          exact List.mem_filterMap.mpr ⟨b₀, hb₀, by rw [hr']; rfl⟩
        rcases List.mem_or_eq_of_mem_set hb₀ with hb₀' | rfl
        · exact mem_setStatus_of_ne (hrc.2.1 b₀ hb₀' r' hr') hne'
        · rw [hb₂] at hr'
          cases hr'
      · intro r' hr'
        rcases List.mem_append.mp hr' with hr'' | hr''
        · have hold := hrc.2.2 r' hr''
          have hne' : r'.num ≠ rr.num := fun hc =>
            hrr_c (hc ▸ List.mem_map_of_mem OrderRef.num hr'')
          exact mem_setStatus_of_ne hold hne'
        · have hre : r' = rr := by simpa using hr''
          subst hre
          exact mem_setStatus_target herr
    · -- Numbering
      constructor
      · show (setStatus _ rr.num OrderStatus.COMPLETE).orders.map OrderEntry.num
          = List.range' STARTING_ORDER_NUMBER
            (setStatus _ rr.num OrderStatus.COMPLETE).orders.length
        rw [setStatus_map_num, setStatus_length]
        exact hnum.1
      · show s.nextOrderNumber = STARTING_ORDER_NUMBER +
          (setStatus _ rr.num OrderStatus.COMPLETE).orders.length
        rw [setStatus_length]
        exact hnum.2
    · -- RefsNodup
      show ((s.orderQueue.orders.map OrderRef.num) ++
          (s.bots.set i b₂).filterMap (fun b => b.currentOrder.map OrderRef.num) ++
          (s.completedOrders ++ [rr]).map OrderRef.num).Nodup
      rw [List.map_append]
      have hx : ((s.orderQueue.orders.map OrderRef.num) ++
          (s.bots.set i b₂).filterMap (fun b => b.currentOrder.map OrderRef.num) ++
          (s.completedOrders.map OrderRef.num ++ [rr].map OrderRef.num)).Perm
          (rr.num :: ((s.orderQueue.orders.map OrderRef.num) ++
            (s.bots.set i b₂).filterMap (fun b => b.currentOrder.map OrderRef.num) ++
            s.completedOrders.map OrderRef.num)) := by


        have h1 := (List.perm_append_singleton rr.num
          (s.completedOrders.map OrderRef.num)).append_left
          ((s.orderQueue.orders.map OrderRef.num) ++
            (s.bots.set i b₂).filterMap (fun b => b.currentOrder.map OrderRef.num))
        have h2 := @List.perm_middle _ rr.num
          ((s.orderQueue.orders.map OrderRef.num) ++
            (s.bots.set i b₂).filterMap (fun b => b.currentOrder.map OrderRef.num))
          (s.completedOrders.map OrderRef.num)
        have e0 : ((s.orderQueue.orders.map OrderRef.num) ++
            (s.bots.set i b₂).filterMap (fun b => b.currentOrder.map OrderRef.num)) ++
            (s.completedOrders.map OrderRef.num ++ [rr].map OrderRef.num)
            = (s.orderQueue.orders.map OrderRef.num) ++
              (s.bots.set i b₂).filterMap (fun b => b.currentOrder.map OrderRef.num) ++
              (s.completedOrders.map OrderRef.num ++ [rr.num]) := by
          simp
        rw [← e0] at *
        exact (h1.trans h2).trans (by rw [List.append_assoc])
      rw [hx.nodup_iff]
      exact hrn2
    · -- BotsWF
      refine ⟨?_, hbw.2⟩
      intro b₀ hb₀
      rcases List.mem_or_eq_of_mem_set hb₀ with hb₀' | rfl
      · exact hbw.1 b₀ hb₀'
      · exact ⟨by simp [hb₂], by simp [hb₂]⟩
    · -- BotIds
      have hmap : (s.bots.set i b₂).map Bot.botId = s.bots.map Bot.botId := by
        rw [List.map_set]
        have hlen : i < (s.bots.map Bot.botId).length := by simpa using hi
        have hgetD : (s.bots.map Bot.botId).getD i 0 = (s.bots.getD i default).botId := by
          rw [List.getD_eq_getElem _ _ hlen, List.getElem_map, List.getD_eq_getElem _ _ hi]
        rw [hb₂]
        show (s.bots.map Bot.botId).set i (s.bots.getD i default).botId = _
        rw [← hgetD]
        exact set_getD_self hlen
      refine ⟨?_, ?_, ?_⟩
      · show List.Chain' (· < ·) ((s.bots.set i b₂).map Bot.botId)
        rw [hmap]
        exact hbi.1
      · intro b₀ hb₀
        rcases List.mem_or_eq_of_mem_set hb₀ with hb₀' | rfl
        · exact hbi.2.1 b₀ hb₀'
        · show STARTING_BOT_ID ≤ (s.bots.getD i default).botId ∧
              (s.bots.getD i default).botId < s.nextBotId
          exact hbi.2.1 _ hbmem
      · show s.nextBotId = STARTING_BOT_ID + (s.bots.set i b₂).length + s.removedBots.length
        rw [List.length_set]
        exact hbi.2.2
  obtain ⟨s₅, hpass, hwf5, hc5, hr5, hno5, hnb5, hbl5, hmap5⟩ := assignPass_wf hwf3
  have hlf5 : s₅.loggerFails = false := hwf5.1.2.2.2.2.2.2.2
  refine ⟨s₅, ?_, hwf5, ?_, ?_, ?_, ?_, ?_, ?_, ?_⟩
  · show fireTimer s i = .ok s₅
    unfold fireTimer
    dsimp only
    rw [hcompl]
    dsimp only
    rw [← hs₂', ← hs₃]
    rw [logCall, if_neg (by rw [hs₃, hs₂']; simp [setStatus, hlf])]
    dsimp only
    rw [hpass]
    dsimp only
    by_cases hcond : (s₅.orderQueue.isEmpty && (s₅.bots.getD i default).isIdle) = true
    · rw [if_pos hcond, logCall, if_neg (by simp [hlf5])]
    · rw [if_neg hcond]
  · rw [hc5]
    show s₂'.completedOrders ++ [rr] = s.completedOrders ++ [rr]
    rw [hs₂']
    rfl
  · rw [hmap5]
    show s₂'.orders.map OrderEntry.num = s.orders.map OrderEntry.num
    rw [hs₂']
    exact setStatus_map_num _ _ _
  · rw [hno5]
    rfl
  · rw [hnb5]
    rfl
  · rw [hbl5]
    show (s.bots.set i b₂).length = s.bots.length
    rw [List.length_set]
  · rw [hr5]
    rfl
  · refine ⟨s₃, hpass, rfl, rfl, hlf, ?_, ?_, ?_, ?_, ?_⟩
    · exact statusOf_setStatus_self _ ⟨_, herr, rfl⟩
    · intro n hn
      exact statusOf_setStatus_ne _ (fun hc => hn hc.symm)
    · show (s.orderQueue.orders.map OrderRef.num).Nodup
      exact (List.nodup_append.mp (List.nodup_append.mp htail).1).1
    · intro r' hr'
      have hr'' : r' ∈ s.orderQueue.orders := hr'
      obtain ⟨e, he, hen⟩ : ∃ e ∈ s.orders, e.num = r'.num :=
        ⟨_, hrc.1 r' hr'', rfl⟩
      refine ⟨if e.num = rr.num then { e with status := OrderStatus.COMPLETE } else e,
        mem_setStatus.mpr ⟨e, he, rfl⟩, ?_⟩
      by_cases hc : e.num = rr.num
      · rw [if_pos hc]
        exact hen
      · rw [if_neg hc]
        exact hen
    · exact hrr_q

/-- Every reachable controller state is fully well-formed. -/
theorem reachable_wf {s : CtrlState} (h : Reachable s) : WF s := by
  induction h with
  | init =>
      refine ⟨⟨⟨rfl, rfl⟩, ?_, ⟨?_, ?_, ?_⟩, ⟨rfl, rfl⟩, ?_, ⟨?_, ?_⟩, ⟨?_, ?_, rfl⟩, rfl⟩, ?_⟩
      · intro e he; cases he
      · intro r hr; cases hr
      · intro b hb; cases hb
      · intro r hr; cases hr
      · exact List.nodup_nil
      · intro b hb; cases hb
      · intro b hb; cases hb
      · exact List.chain'_nil
      · intro b hb; cases hb
      · intro hne; exact absurd rfl hne
  | @step s₀ s' e _ hstep ih =>
      cases e with
      | createNormal =>
          obtain ⟨s₂, heq, hwf2, _, _, _, _, _, _⟩ := createOrder_wf ih.1 OrderType.NORMAL
          have : createNormalOrder s₀ = createOrder s₀ OrderType.NORMAL := rfl
          simp only [step, this, heq, Except.toOption, Option.map] at hstep
          injection hstep with hstep
          rw [← hstep]
          exact hwf2
      | createVIP =>
          obtain ⟨s₂, heq, hwf2, _, _, _, _, _, _⟩ := createOrder_wf ih.1 OrderType.VIP
          have : createVIPOrder s₀ = createOrder s₀ OrderType.VIP := rfl
          simp only [step, this, heq, Except.toOption, Option.map] at hstep
          injection hstep with hstep
          rw [← hstep]
          exact hwf2
      | addBot =>
          obtain ⟨s₂, heq, hwf2, _, _, _, _, _, _⟩ := addBot_wf ih.1
          simp only [step, heq, Except.toOption, Option.map] at hstep
          injection hstep with hstep
          rw [← hstep]
          exact hwf2
      | removeBot =>
          obtain ⟨s₂, res, heq, hwf2, _, _, _, _⟩ := removeBot_wf ih
          simp only [step, heq, Except.toOption, Option.map] at hstep
          injection hstep with hstep
          rw [← hstep]
          exact hwf2
      | timerFire i =>
          simp only [step] at hstep
          by_cases hcond : i < s₀.bots.length ∧
              (s₀.bots.getD i default).processingTimeout = true
          · rw [if_pos hcond] at hstep
            obtain ⟨hi, ht⟩ := hcond
            have hbmem : s₀.bots.getD i default ∈ s₀.bots := List.getD_mem default hi
            have hbw := ih.1.2.2.2.2.2.1.1 _ hbmem
            have hproc : (s₀.bots.getD i default).status = BotStatus.PROCESSING :=
              hbw.2.mpr ht
            have hsome : ((s₀.bots.getD i default).currentOrder).isSome = true :=
              hbw.1.mp hproc
            rcases Option.isSome_iff_exists.mp hsome with ⟨rr, hco⟩
            obtain ⟨s₂, heq, hwf2, _, _, _, _, _, _, _⟩ := fireTimer_wf ih hi hco
            simp only [heq, Except.toOption, Option.map] at hstep
            injection hstep with hstep
            rw [← hstep]
            exact hwf2
          · rw [if_neg hcond] at hstep
            cases hstep
      | timerFireD j =>
          simp only [step] at hstep
          by_cases hcond : j < s₀.removedBots.length ∧
              (s₀.removedBots.getD j default).processingTimeout = true
          · obtain ⟨hj, ht⟩ := hcond
            have hbmem : s₀.removedBots.getD j default ∈ s₀.removedBots :=
              List.getD_mem default hj
            have hclear := ih.1.2.2.2.2.2.1.2 _ hbmem
            rw [hclear.2.2] at ht
            cases ht
          · rw [if_neg hcond] at hstep
            cases hstep

/-! ### Claim theorems -/

/-- Run a sequence of external events from a fresh controller (with a
non-throwing logger), stopping at the first disabled or failing event. -/
def runEvents (evs : List Ev) : Option CtrlState :=
  evs.foldlM step (CtrlState.init false)

/-- C1: for every sequence of `OrderQueue` mutator calls (enqueue,
dequeue, clear) starting from a fresh queue, the snapshot returned by
`getAll` equals the currently queued VIP orders in enqueue order followed
by the currently queued normal orders in enqueue order (the two lists
computed by the spec-side `SpecQueue` model, which appends each enqueue
to the back of its class); in particular a VIP enqueue inserts
immediately after the last queued VIP order and a normal enqueue appends
at the end. -/
theorem C1_queue_ordering_invariant (ops : List QOp) (r : OrderRef) :
    (runQueue ops).getAll
      = (runSpecQueue ops).vips ++ (runSpecQueue ops).normals ∧
    (runSpecQueue ops).vips.all (fun x => x.isVIP) = true ∧
    (runSpecQueue ops).normals.all (fun x => !x.isVIP) = true ∧
    (runQueue (ops ++ [QOp.enq r])).getAll
      = (if r.isVIP then
          (runSpecQueue ops).vips ++ [r] ++ (runSpecQueue ops).normals
        else
          (runSpecQueue ops).vips ++ (runSpecQueue ops).normals ++ [r]) := by
  obtain ⟨hpure, hsim⟩ := runSpecQueue_pure_sim ops
  refine ⟨?_, ?_, ?_, ?_⟩
  · rw [hsim]
    rfl
  · rw [List.all_eq_true]
    intro x hx
    simpa using hpure.1 x hx
  · rw [List.all_eq_true]
    intro x hx
    simpa using hpure.2 x hx
  · have hrun : runQueue (ops ++ [QOp.enq r]) = (runQueue ops).enqueue r := by
      unfold runQueue
      rw [List.foldl_append]
      rfl
    rw [hrun, hsim, conc_enqueue _ hpure r]
    by_cases hv : r.isVIP
    · simp only [hv, if_pos]
      show ((runSpecQueue ops).enqueue r).vips ++ ((runSpecQueue ops).enqueue r).normals = _
      simp [SpecQueue.enqueue, hv]
    · simp only [hv, Bool.false_eq_true, if_neg, not_false_iff]
      show ((runSpecQueue ops).enqueue r).vips ++ ((runSpecQueue ops).enqueue r).normals = _
      simp [SpecQueue.enqueue, hv, List.append_assoc]

/-- Positional characterisation of the assignment loop: with `k` the
number of bindings (idle workers available vs. queued orders), the `m`-th
listed idle worker is bound to the `m`-th queued order, the first `k`
orders leave the queue, and no other bot slot changes. -/
theorem assignLoop_bind : ∀ (idx : List Nat) (s : CtrlState),
    s.loggerFails = false →
    (∀ i ∈ idx, i < s.bots.length ∧ (s.bots.getD i default).isIdle = true) →
    idx.Nodup →
    ∃ s', assignLoop s idx = .ok s' ∧
      s'.orderQueue.orders
        = s.orderQueue.orders.drop (min idx.length s.orderQueue.orders.length) ∧
      (∀ m, m < min idx.length s.orderQueue.orders.length →
        s'.bots.getD (idx.getD m 0) default
          = { botId := (s.bots.getD (idx.getD m 0) default).botId,
              status := BotStatus.PROCESSING,
              currentOrder := some (s.orderQueue.orders.getD m default),
              processingTimeout := true }) ∧
      (∀ j, j ∉ idx.take (min idx.length s.orderQueue.orders.length) →
        s'.bots.getD j default = s.bots.getD j default) := by
  intro idx
  induction idx with
  | nil =>
      intro s hlf _ _
      exact ⟨s, rfl, by simp, by intro m hm; simp at hm, fun j _ => rfl⟩
  | cons i rest ih =>
      intro s hlf hvalid hnd
      match hq : s.orderQueue.orders with
      | [] =>
          refine ⟨s, ?_, by simp [hq], ?_, fun j _ => rfl⟩
          · have hqe : s.orderQueue.isEmpty = true := by
              simp [OrderQueue.isEmpty, hq]
            simp [assignLoop, hqe]
          · intro m hm
            simp at hm
      | r :: restq =>
          obtain ⟨hi, hidle⟩ := hvalid i (List.mem_cons_self i rest)
          have hbind := bindOne_eq hq hidle hlf
          obtain ⟨hp1, hpbots, _, _, _, _, hplf, _, _, hpblen⟩ :=
            bindOne_props hq hidle hlf hbind
          set s₁ := setStatus
            { s with orderQueue := (s.orderQueue.dequeue).2,
                     bots := s.bots.set i
                       { botId := (s.bots.getD i default).botId,
                         status := BotStatus.PROCESSING,
                         currentOrder := some r,
                         processingTimeout := true } }
            r.num OrderStatus.PROCESSING with hs₁
          have hnotmem : i ∉ rest := (List.nodup_cons.mp hnd).1
          have hgetD_ne : ∀ j, j ≠ i → s₁.bots.getD j default = s.bots.getD j default := by
            intro j hj
            rw [hpbots]
            exact getD_set_ne default (fun hc => hj hc.symm)
          have hgetD_i : s₁.bots.getD i default
              = { botId := (s.bots.getD i default).botId,
                  status := BotStatus.PROCESSING,
                  currentOrder := some r,
                  processingTimeout := true } := by
            rw [hpbots]
            have hi' : i < (s.bots.set i
                { botId := (s.bots.getD i default).botId,
                  status := BotStatus.PROCESSING,
                  currentOrder := some r,
                  processingTimeout := true }).length := by
              simpa using hi
            rw [List.getD_eq_getElem _ _ hi', List.getElem_set_self]
          have hvalid' : ∀ i' ∈ rest,
              i' < s₁.bots.length ∧ (s₁.bots.getD i' default).isIdle = true := by
            intro i' hi'
            have hne : i' ≠ i := fun hc => hnotmem (hc ▸ hi')
            obtain ⟨h1, h2⟩ := hvalid i' (List.mem_cons_of_mem i hi')
            exact ⟨by rw [hpblen]; exact h1, by rw [hgetD_ne i' hne]; exact h2⟩
          obtain ⟨s'', hrun, hq'', hbind'', hunt''⟩ :=
            ih s₁ hplf hvalid' (List.nodup_cons.mp hnd).2
          rw [hp1] at hq'' hbind'' hunt''
          have hkeq : min (i :: rest).length (r :: restq).length
              = min rest.length restq.length + 1 := by
            simp [Nat.succ_min_succ]
          refine ⟨s'', ?_, ?_, ?_, ?_⟩
          · have hqne : s.orderQueue.isEmpty = false := by
              simp [OrderQueue.isEmpty, hq]
            simp only [assignLoop, hqne, Bool.false_eq_true, if_neg, hbind]
            exact hrun
          · rw [hkeq, hq'', List.drop_succ_cons]
          · intro m hm
            rw [hkeq] at hm
            match m with
            | 0 =>
                have h0 : ((i :: rest).getD 0 0) = i := rfl
                rw [h0]
                have hnotake : i ∉ rest.take (min rest.length restq.length) :=
                  fun hc => hnotmem (List.take_subset _ _ hc)
                rw [hunt'' i hnotake, hgetD_i]
                rfl
            | Nat.succ m' =>
                have hm' : m' < min rest.length restq.length := by omega
                have hidm : (i :: rest).getD (m' + 1) 0 = rest.getD m' 0 := rfl
                rw [hidm]
                have hmem : rest.getD m' 0 ∈ rest :=
                  List.getD_mem 0 (lt_of_lt_of_le hm' (Nat.min_le_left _ _))
                have hne : rest.getD m' 0 ≠ i := fun hc => hnotmem (hc ▸ hmem)
                have hbm := hbind'' m' hm'
                rw [hgetD_ne _ hne] at hbm
                rw [hbm]
                rfl
          · intro j hj
            rw [hkeq, List.take_succ_cons] at hj
            have hj1 : j ≠ i := fun hc => hj (hc ▸ List.mem_cons_self _ _)
            have hj2 : j ∉ rest.take (min rest.length restq.length) :=
              fun hc => hj (List.mem_cons_of_mem i hc)
            rw [hunt'' j hj2, hgetD_ne j hj1]

/-- Status side of the loop characterisation: each of the `k` dequeued
orders is marked PROCESSING in the canonical store, and every other
order's status is untouched. -/
theorem assignLoop_status : ∀ (idx : List Nat) (s : CtrlState),
    s.loggerFails = false →
    (∀ i ∈ idx, i < s.bots.length ∧ (s.bots.getD i default).isIdle = true) →
    idx.Nodup →
    (s.orderQueue.orders.map OrderRef.num).Nodup →
    (∀ r ∈ s.orderQueue.orders, ∃ e ∈ s.orders, e.num = r.num) →
    ∃ s', assignLoop s idx = .ok s' ∧
      (∀ m, m < min idx.length s.orderQueue.orders.length →
        statusOf s' (s.orderQueue.orders.getD m default).num
          = some OrderStatus.PROCESSING) ∧
      (∀ n, n ∉ (s.orderQueue.orders.take
          (min idx.length s.orderQueue.orders.length)).map OrderRef.num →
        statusOf s' n = statusOf s n) := by
  intro idx
  induction idx with
  | nil =>
      intro s hlf _ _ _ _
      exact ⟨s, rfl, by intro m hm; simp at hm, fun n _ => rfl⟩
  | cons i rest ih =>
      intro s hlf hvalid hnd hqnd hex
      match hq : s.orderQueue.orders with
      | [] =>
          refine ⟨s, ?_, ?_, fun n _ => rfl⟩
          · have hqe : s.orderQueue.isEmpty = true := by
              simp [OrderQueue.isEmpty, hq]
            simp [assignLoop, hqe]
          · intro m hm
            simp at hm
      | r :: restq =>
          obtain ⟨hi, hidle⟩ := hvalid i (List.mem_cons_self i rest)
          have hbind := bindOne_eq hq hidle hlf
          obtain ⟨hp1, hpbots, _, _, _, _, hplf, hpmap, _, hpblen⟩ :=
            bindOne_props hq hidle hlf hbind
          set s₁ := setStatus
            { s with orderQueue := (s.orderQueue.dequeue).2,
                     bots := s.bots.set i
                       { botId := (s.bots.getD i default).botId,
                         status := BotStatus.PROCESSING,
                         currentOrder := some r,
                         processingTimeout := true } }
            r.num OrderStatus.PROCESSING with hs₁
          have hnotmem : i ∉ rest := (List.nodup_cons.mp hnd).1
          have hgetD_ne : ∀ j, j ≠ i → s₁.bots.getD j default = s.bots.getD j default := by
            intro j hj
            rw [hpbots]
            exact getD_set_ne default (fun hc => hj hc.symm)
          have hvalid' : ∀ i' ∈ rest,
              i' < s₁.bots.length ∧ (s₁.bots.getD i' default).isIdle = true := by
            intro i' hi'
            have hne : i' ≠ i := fun hc => hnotmem (hc ▸ hi')
            obtain ⟨h1, h2⟩ := hvalid i' (List.mem_cons_of_mem i hi')
            exact ⟨by rw [hpblen]; exact h1, by rw [hgetD_ne i' hne]; exact h2⟩
          have hqnd1 : (restq.map OrderRef.num).Nodup := by
            rw [hq] at hqnd
            exact (List.nodup_cons.mp hqnd).2
          have hrnot : r.num ∉ restq.map OrderRef.num := by
            rw [hq] at hqnd
            exact (List.nodup_cons.mp hqnd).1
          have hqnd1' : (s₁.orderQueue.orders.map OrderRef.num).Nodup := by
            rw [hp1]; exact hqnd1
          have hex1 : ∀ r' ∈ s₁.orderQueue.orders, ∃ e ∈ s₁.orders, e.num = r'.num := by
            intro r' hr'
            rw [hp1] at hr'
            obtain ⟨e, he, hen⟩ := hex r' (by rw [hq]; exact List.mem_cons_of_mem r hr')
            refine ⟨if e.num = r.num then { e with status := OrderStatus.PROCESSING } else e,
              mem_setStatus.mpr ⟨e, he, rfl⟩, ?_⟩
            by_cases hc : e.num = r.num
            · rw [if_pos hc]
              exact hen
            · rw [if_neg hc]
              exact hen
          have her : ∃ e ∈ s.orders, e.num = r.num :=
            hex r (by rw [hq]; exact List.mem_cons_self r restq)
          have hst1 : statusOf s₁ r.num = some OrderStatus.PROCESSING :=
            statusOf_setStatus_self _ her
          have hstne : ∀ n, n ≠ r.num → statusOf s₁ n = statusOf s n := by
            intro n hn
            exact statusOf_setStatus_ne _ (fun hc => hn hc.symm)
          obtain ⟨s'', hrun, hstat'', hpres''⟩ :=
            ih s₁ hplf hvalid' (List.nodup_cons.mp hnd).2 hqnd1' hex1
          rw [hp1] at hstat'' hpres''
          have hkeq : min (i :: rest).length (r :: restq).length
              = min rest.length restq.length + 1 := by
            simp [Nat.succ_min_succ]
          refine ⟨s'', ?_, ?_, ?_⟩
          · have hqne : s.orderQueue.isEmpty = false := by
              simp [OrderQueue.isEmpty, hq]
            simp only [assignLoop, hqne, Bool.false_eq_true, if_neg, hbind]
            exact hrun
          · intro m hm
            rw [hkeq] at hm
            match m with
            | 0 =>
                show statusOf s'' r.num = some OrderStatus.PROCESSING
                have hnr : r.num ∉ (restq.take (min rest.length restq.length)).map
                    OrderRef.num := fun hc =>
                  hrnot (List.map_subset _ (List.take_subset _ _) hc)
                rw [hpres'' r.num hnr]
                exact hst1
            | Nat.succ m' =>
                have hm' : m' < min rest.length restq.length := by omega
                exact hstat'' m' hm'
          · intro n hn
            rw [hkeq, List.take_succ_cons, List.map_cons] at hn
            have hn1 : n ≠ r.num := fun hc => hn (hc ▸ List.mem_cons_self _ _)
            have hn2 : n ∉ (restq.take (min rest.length restq.length)).map OrderRef.num :=
              fun hc => hn (List.mem_cons_of_mem _ hc)
            rw [hpres'' n hn2]
            exact hstne n hn1

instance (q : OrderQueue) : Decidable q.wf :=
  inferInstanceAs (Decidable
    (q.orders = (q.orders.filter fun r => r.isVIP) ++ (q.orders.filter fun r => !r.isVIP)
      ∧ q.vipOrderCount = (q.orders.filter fun r => r.isVIP).length))

instance (s : CtrlState) : Decidable (StatusPlacement s) :=
  inferInstanceAs (Decidable (∀ e ∈ s.orders,
    (e.status = OrderStatus.PENDING ↔ e.ref ∈ s.orderQueue.orders) ∧
    (e.status = OrderStatus.PROCESSING ↔ ∃ b ∈ s.bots, b.currentOrder = some e.ref) ∧
    (e.status = OrderStatus.COMPLETE ↔ e.ref ∈ s.completedOrders)))

instance (s : CtrlState) : Decidable (RefsClosed s) :=
  inferInstanceAs (Decidable
    ((∀ r ∈ s.orderQueue.orders,
        (⟨r.num, r.typ, OrderStatus.PENDING⟩ : OrderEntry) ∈ s.orders) ∧
     (∀ b ∈ s.bots, ∀ r ∈ b.currentOrder,
        (⟨r.num, r.typ, OrderStatus.PROCESSING⟩ : OrderEntry) ∈ s.orders) ∧
     (∀ r ∈ s.completedOrders,
        (⟨r.num, r.typ, OrderStatus.COMPLETE⟩ : OrderEntry) ∈ s.orders)))

instance (s : CtrlState) : Decidable (Numbering s) :=
  inferInstanceAs (Decidable
    (s.orders.map OrderEntry.num = List.range' STARTING_ORDER_NUMBER s.orders.length ∧
     s.nextOrderNumber = STARTING_ORDER_NUMBER + s.orders.length))

instance (s : CtrlState) : Decidable (RefsNodup s) :=
  inferInstanceAs (Decidable
    (s.orderQueue.orders.map OrderRef.num ++
     s.bots.filterMap (fun b => b.currentOrder.map OrderRef.num) ++
     s.completedOrders.map OrderRef.num).Nodup)

instance (b : Bot) : Decidable (BotWF b) :=
  inferInstanceAs (Decidable
    ((b.status = BotStatus.PROCESSING ↔ b.currentOrder.isSome = true) ∧
     (b.status = BotStatus.PROCESSING ↔ b.processingTimeout = true)))

instance (s : CtrlState) : Decidable (BotsWF s) :=
  inferInstanceAs (Decidable
    ((∀ b ∈ s.bots, BotWF b) ∧
     (∀ b ∈ s.removedBots,
        b.status = BotStatus.IDLE ∧ b.currentOrder = none ∧
          b.processingTimeout = false)))

def chainLtB : List Nat → Bool
  | [] => true
  | [_] => true
  | a :: b :: l => decide (a < b) && chainLtB (b :: l)

theorem chainLtB_iff : ∀ l : List Nat, chainLtB l = true ↔ List.Chain' (· < ·) l
  | [] => by simp [chainLtB]
  | [_] => by simp [chainLtB]
  | a :: b :: l => by
    rw [chainLtB, Bool.and_eq_true, decide_eq_true_iff, chainLtB_iff (b :: l),
      List.chain'_cons]

instance (s : CtrlState) : Decidable (BotIds s) :=
  decidable_of_iff
    (chainLtB (s.bots.map Bot.botId) = true ∧
     (∀ b ∈ s.bots, STARTING_BOT_ID ≤ b.botId ∧ b.botId < s.nextBotId) ∧
     s.nextBotId = STARTING_BOT_ID + s.bots.length + s.removedBots.length)
    (by rw [chainLtB_iff]; exact Iff.rfl)

instance (s : CtrlState) : Decidable (Sched s) :=
  inferInstanceAs (Decidable
    (s.orderQueue.orders ≠ [] → ∀ b ∈ s.bots, b.status = BotStatus.PROCESSING))

instance (s : CtrlState) : Decidable (WFpre s) :=
  inferInstanceAs (Decidable
    (s.orderQueue.wf ∧ StatusPlacement s ∧ RefsClosed s ∧ Numbering s ∧
     RefsNodup s ∧ BotsWF s ∧ BotIds s ∧ s.loggerFails = false))

instance (s : CtrlState) : Decidable (WF s) :=
  inferInstanceAs (Decidable (WFpre s ∧ Sched s))

/-- Binding characterisation lifted to the full assignment pass. -/
theorem assignPass_bind (s : CtrlState) (hlf : s.loggerFails = false) :
    ∃ s', assignPass s = .ok s' ∧
      s'.orderQueue.orders = s.orderQueue.orders.drop
        (min (idleIdxs s).length s.orderQueue.orders.length) ∧
      (∀ m, m < min (idleIdxs s).length s.orderQueue.orders.length →
        s'.bots.getD ((idleIdxs s).getD m 0) default
          = { botId := (s.bots.getD ((idleIdxs s).getD m 0) default).botId,
              status := BotStatus.PROCESSING,
              currentOrder := some (s.orderQueue.orders.getD m default),
              processingTimeout := true }) ∧
      (∀ j, j ∉ (idleIdxs s).take
          (min (idleIdxs s).length s.orderQueue.orders.length) →
        s'.bots.getD j default = s.bots.getD j default) := by
  by_cases h1 : (idleIdxs s).isEmpty
  · have hlen : (idleIdxs s).length = 0 := by
      rw [List.isEmpty_iff] at h1
      simp [h1]
    refine ⟨s, by simp [assignPass, h1], ?_, ?_, fun j _ => rfl⟩
    · rw [hlen]
      simp
    · intro m hm
      rw [hlen] at hm
      simp at hm
  · by_cases h2 : s.orderQueue.isEmpty
    · have hlen : s.orderQueue.orders.length = 0 := by
        simpa [OrderQueue.isEmpty] using h2
      refine ⟨s, by simp [assignPass, h2], ?_, ?_, fun j _ => rfl⟩
      · rw [hlen]
        simp
      · intro m hm
        rw [hlen] at hm
        simp at hm
    · obtain ⟨s', hrun, hdrop, hbind, hunt⟩ :=
        assignLoop_bind (idleIdxs s) s hlf
          (fun i hi => mem_idleIdxs.mp hi) (idleIdxs_nodup s)
      refine ⟨s', ?_, hdrop, hbind, hunt⟩
      simp only [assignPass]
      rw [if_neg (by simp [h1, h2])]
      exact hrun

/-- Status characterisation lifted to the full assignment pass. -/
theorem assignPass_status (s : CtrlState)
    (hlf : s.loggerFails = false)
    (hqnd : (s.orderQueue.orders.map OrderRef.num).Nodup)
    (hex : ∀ r ∈ s.orderQueue.orders, ∃ e ∈ s.orders, e.num = r.num) :
    ∃ s', assignPass s = .ok s' ∧
      (∀ m, m < min (idleIdxs s).length s.orderQueue.orders.length →
        statusOf s' (s.orderQueue.orders.getD m default).num
          = some OrderStatus.PROCESSING) ∧
      (∀ n, n ∉ (s.orderQueue.orders.take
          (min (idleIdxs s).length s.orderQueue.orders.length)).map OrderRef.num →
        statusOf s' n = statusOf s n) := by
  by_cases h1 : (idleIdxs s).isEmpty
  · have hlen : (idleIdxs s).length = 0 := by
      rw [List.isEmpty_iff] at h1
      simp [h1]
    refine ⟨s, by simp [assignPass, h1], ?_, fun n _ => rfl⟩
    intro m hm
    rw [hlen] at hm
    simp at hm
  · by_cases h2 : s.orderQueue.isEmpty
    · have hlen : s.orderQueue.orders.length = 0 := by
        simpa [OrderQueue.isEmpty] using h2
      refine ⟨s, by simp [assignPass, h2], ?_, fun n _ => rfl⟩
      intro m hm
      rw [hlen] at hm
      simp at hm
    · obtain ⟨s', hrun, hstat, hpres⟩ :=
        assignLoop_status (idleIdxs s) s hlf
          (fun i hi => mem_idleIdxs.mp hi) (idleIdxs_nodup s) hqnd hex
      refine ⟨s', ?_, hstat, hpres⟩
      simp only [assignPass]
      rw [if_neg (by simp [h1, h2])]
      exact hrun

/-- C3: the assignment pass iterates the idle workers in pool insertion
order, binding the `m`-th idle worker to the `m`-th queued task and
stopping when the queue (or the idle list) is exhausted; each binding
sets the worker to PROCESSING with the task in its slot and the timer
started, and sets the task's status to PROCESSING; untouched bot slots
are unchanged; and the pass is deterministic: any state with the same
idle-worker list and queue contents gets the same worker-to-task
bindings. -/
theorem C3_assignment_pass_deterministic (s : CtrlState) (hwf : WFpre s) :
    ∃ s', assignPass s = .ok s' ∧
      s'.orderQueue.orders = s.orderQueue.orders.drop
        (min (idleIdxs s).length s.orderQueue.orders.length) ∧
      (∀ m, m < min (idleIdxs s).length s.orderQueue.orders.length →
        (s'.bots.getD ((idleIdxs s).getD m 0) default
          = { botId := (s.bots.getD ((idleIdxs s).getD m 0) default).botId,
              status := BotStatus.PROCESSING,
              currentOrder := some (s.orderQueue.orders.getD m default),
              processingTimeout := true }) ∧
        statusOf s' (s.orderQueue.orders.getD m default).num
          = some OrderStatus.PROCESSING) ∧
      (∀ j, j ∉ (idleIdxs s).take
          (min (idleIdxs s).length s.orderQueue.orders.length) →
        s'.bots.getD j default = s.bots.getD j default) ∧
      (∀ t t', t.loggerFails = false → idleIdxs t = idleIdxs s →
        t.orderQueue.orders = s.orderQueue.orders →
        assignPass t = .ok t' →
        ∀ m, m < min (idleIdxs s).length s.orderQueue.orders.length →
          (t'.bots.getD ((idleIdxs s).getD m 0) default).currentOrder
            = (s'.bots.getD ((idleIdxs s).getD m 0) default).currentOrder) := by
  obtain ⟨hqwf, hsp, hrc, hnum, hrn, hbw, hbi, hlf⟩ := hwf
  have hqnd : (s.orderQueue.orders.map OrderRef.num).Nodup := by
    have h0 := hrn
    unfold RefsNodup at h0
    exact ((List.nodup_append.mp (List.nodup_append.mp h0).1).1)
  have hex : ∀ r ∈ s.orderQueue.orders, ∃ e ∈ s.orders, e.num = r.num := by
    intro r hr
    exact ⟨_, hrc.1 r hr, rfl⟩
  obtain ⟨s', hrun, hdrop, hbind, hunt⟩ := assignPass_bind s hlf
  obtain ⟨s'', hrun', hstat, _⟩ := assignPass_status s hlf hqnd hex
  rw [hrun] at hrun'
  injection hrun' with hrun'
  subst hrun'
  refine ⟨s', hrun, hdrop, ?_, hunt, ?_⟩
  · intro m hm
    exact ⟨hbind m hm, hstat m hm⟩
  · intro t t' htlf hti htq htrun m hm
    obtain ⟨t'', htrun2, _, htbind, _⟩ := assignPass_bind t htlf
    rw [htrun] at htrun2
    injection htrun2 with htrun2
    subst htrun2
    have hm2 := hm
    rw [← hti, ← htq] at hm2
    have hb1 := htbind m hm2
    rw [hti, htq] at hb1
    rw [hb1, hbind m hm]

theorem filter_eq_singleton_of_nodup {l : List Nat} {i : Nat} {p : Nat → Bool}
    (hnd : l.Nodup) (hi : i ∈ l) (hp : ∀ j ∈ l, p j = true ↔ j = i) :
    l.filter p = [i] := by
  induction l with
  | nil => cases hi
  | cons x t ih =>
      obtain ⟨hx, hnd'⟩ := List.nodup_cons.mp hnd
      by_cases hxi : x = i
      · subst hxi
        rw [List.filter_cons_of_pos ((hp x (List.mem_cons_self x t)).mpr rfl)]
        have ht : t.filter p = [] := by
          rw [List.filter_eq_nil_iff]
          intro j hj hpj
          have hji := (hp j (List.mem_cons_of_mem x hj)).mp hpj
          subst hji
          exact hx hj
        rw [ht]
      · have hpx : ¬ (p x = true) := fun hb =>
          hxi ((hp x (List.mem_cons_self x t)).mp hb)
        rw [List.filter_cons_of_neg (by simpa using hpx)]
        have hi' : i ∈ t := by
          rcases List.mem_cons.mp hi with h | h
          · exact absurd h.symm hxi
          · exact h
        exact ih hnd' hi' (fun j hj => hp j (List.mem_cons_of_mem x hj))

theorem idleIdxs_eq_singleton {s : CtrlState} {i : Nat} (hi : i < s.bots.length)
    (hidle : (s.bots.getD i default).isIdle = true)
    (hothers : ∀ j, j < s.bots.length → j ≠ i →
      (s.bots.getD j default).isIdle = false) :
    idleIdxs s = [i] := by
  unfold idleIdxs
  apply filter_eq_singleton_of_nodup (List.nodup_range _) (List.mem_range.mpr hi)
  intro j hj
  have hjl := List.mem_range.mp hj
  constructor
  · intro hpj
    by_contra hne
    rw [hothers j hjl hne] at hpj
    cases hpj
  · intro hji
    subst hji
    exact hidle

/-- C6: whenever a pool worker's processing timer fires (its timer handle
is set), the completion handler marks the worker's task COMPLETE and
appends it to the completed list (length +1), and runs an assignment
pass; if moreover at least one task was pending at that moment, the pass
immediately rebinds the freed worker to the front pending task: the
worker ends PROCESSING, holding the front task, with a fresh timer, and
the pending count decreases by exactly one. -/
theorem C6_completion_handler (s : CtrlState) (i : Nat)
    (hwf : WF s)
    (hi : i < s.bots.length)
    (ht : (s.bots.getD i default).processingTimeout = true) :
    ∃ s' t, fireTimer s i = .ok s' ∧
      step s (Ev.timerFire i) = some s' ∧
      (s.bots.getD i default).currentOrder = some t ∧
      s'.completedOrders = s.completedOrders ++ [t] ∧
      s'.completedOrders.length = s.completedOrders.length + 1 ∧
      statusOf s' t.num = some OrderStatus.COMPLETE ∧
      (∀ r rest, s.orderQueue.orders = r :: rest →
        (s'.bots.getD i default).status = BotStatus.PROCESSING ∧
        (s'.bots.getD i default).currentOrder = some r ∧
        (s'.bots.getD i default).processingTimeout = true ∧
        s'.orderQueue.orders = rest ∧
        s'.orderQueue.size + 1 = s.orderQueue.size) := by
  have hbmem : s.bots.getD i default ∈ s.bots := List.getD_mem default hi
  have hbwi : BotWF (s.bots.getD i default) := hwf.1.2.2.2.2.2.1.1 _ hbmem
  have hproc : (s.bots.getD i default).status = BotStatus.PROCESSING := hbwi.2.mpr ht
  have hsome : ((s.bots.getD i default).currentOrder).isSome = true := hbwi.1.mp hproc
  rcases Option.isSome_iff_exists.mp hsome with ⟨t, hco⟩
  obtain ⟨s', heq, hwf', hcomp, _, _, _, _, _,
    smid, hpass, hmbots, hmq, hmlf, hmst, hmpres, hmnd, hmex, hmnotin⟩ :=
    fireTimer_wf hwf hi hco
  have hmblen : smid.bots.length = s.bots.length := by
    rw [hmbots, List.length_set]
  have hmi : i < smid.bots.length := by rw [hmblen]; exact hi
  have hmidle : (smid.bots.getD i default).isIdle = true := by
    rw [hmbots, List.getD_eq_getElem _ _ (by simpa using hi), List.getElem_set_self]
    rfl
  obtain ⟨s₁, hpass1, hdrop, hbind, _⟩ := assignPass_bind smid hmlf
  rw [hpass] at hpass1
  injection hpass1 with hpass1
  subst hpass1
  obtain ⟨s₂, hpass2, _, hpres⟩ := assignPass_status smid hmlf hmnd hmex
  rw [hpass] at hpass2
  injection hpass2 with hpass2
  subst hpass2
  refine ⟨s', t, heq, ?_, hco, hcomp, ?_, ?_, ?_⟩
  · show step s (Ev.timerFire i) = some s'
    simp only [step]
    rw [if_pos ⟨hi, ht⟩, heq]
    rfl
  · rw [hcomp]
    simp
  · have htn : t.num ∉ (smid.orderQueue.orders.take
        (min (idleIdxs smid).length smid.orderQueue.orders.length)).map OrderRef.num :=
      fun hc => hmnotin (List.map_subset _ (List.take_subset _ _) hc)
    rw [hpres t.num htn]
    exact hmst
  · intro r rest hq
    have hothers : ∀ j, j < smid.bots.length → j ≠ i →
        (smid.bots.getD j default).isIdle = false := by
      intro j hj hne
      have hj' : j < s.bots.length := by rw [← hmblen]; exact hj
      have hgd : smid.bots.getD j default = s.bots.getD j default := by
        rw [hmbots]
        exact getD_set_ne default (fun hc => hne hc.symm)
      rw [hgd]
      have hmem : s.bots.getD j default ∈ s.bots := List.getD_mem default hj'
      have hst := hwf.2 (by rw [hq]; intro hc; cases hc) _ hmem
      have hun : (s.bots.getD j default).isIdle
          = decide ((s.bots.getD j default).status = BotStatus.IDLE) := rfl
      rw [hun, hst]
      decide
    have hsingle : idleIdxs smid = [i] := idleIdxs_eq_singleton hmi hmidle hothers
    have hmqorders : smid.orderQueue.orders = r :: rest := by rw [hmq, hq]
    have hk : min (idleIdxs smid).length smid.orderQueue.orders.length = 1 := by
      rw [hsingle, hmqorders]
      simp
    refine ⟨?_, ?_, ?_, ?_, ?_⟩
    · have hb := hbind 0 (by rw [hk]; exact Nat.zero_lt_one)
      rw [hsingle] at hb
      rw [show ([i].getD 0 0) = i from rfl] at hb
      rw [hb]
    · have hb := hbind 0 (by rw [hk]; exact Nat.zero_lt_one)
      rw [hsingle] at hb
      rw [show ([i].getD 0 0) = i from rfl] at hb
      rw [hb, hmqorders]
      rfl
    · have hb := hbind 0 (by rw [hk]; exact Nat.zero_lt_one)
      rw [hsingle] at hb
      rw [show ([i].getD 0 0) = i from rfl] at hb
      rw [hb]
    · rw [hdrop, hk, hmqorders, List.drop_succ_cons, List.drop_zero]
    · show s'.orderQueue.orders.length + 1 = s.orderQueue.orders.length
      rw [hdrop, hk, hmqorders, hq]
      simp

/-- Controller state after `addBot` on a fresh controller. -/
def wit1 : CtrlState :=
  { orders := [], orderQueue := { orders := [], vipOrderCount := 0 },
    completedOrders := [],
    bots := [{ botId := 1, status := BotStatus.IDLE, currentOrder := none, processingTimeout := false }],
    removedBots := [], nextOrderNumber := 1001, nextBotId := 2, loggerFails := false }

/-- Controller state after `addBot; createNormalOrder`: the single bot is
processing order 1001. -/
def wit2 : CtrlState :=
  { orders := [{ num := 1001, typ := OrderType.NORMAL, status := OrderStatus.PROCESSING }],
    orderQueue := { orders := [], vipOrderCount := 0 },
    completedOrders := [],
    bots := [{ botId := 1, status := BotStatus.PROCESSING,
               currentOrder := some { num := 1001, typ := OrderType.NORMAL },
               processingTimeout := true }],
    removedBots := [], nextOrderNumber := 1002, nextBotId := 2, loggerFails := false }

/-- Controller state after `addBot; createNormalOrder; removeBot`: the
bot was removed while processing, order 1001 is back in the queue. -/
def wit3 : CtrlState :=
  { orders := [{ num := 1001, typ := OrderType.NORMAL, status := OrderStatus.PENDING }],
    orderQueue := { orders := [{ num := 1001, typ := OrderType.NORMAL }], vipOrderCount := 0 },
    completedOrders := [],
    bots := [],
    removedBots := [{ botId := 1, status := BotStatus.IDLE, currentOrder := none, processingTimeout := false }],
    nextOrderNumber := 1002, nextBotId := 2, loggerFails := false }

theorem reachable_wit1 : Reachable wit1 := by
  have h1 : step (CtrlState.init false) Ev.addBot = some wit1 := by decide
  exact Reachable.step Reachable.init h1

theorem reachable_wit2 : Reachable wit2 := by
  have h2 : step wit1 Ev.createNormal = some wit2 := by decide
  exact Reachable.step reachable_wit1 h2

theorem reachable_wit3 : Reachable wit3 := by
  have h3 : step wit2 Ev.removeBot = some wit3 := by decide
  exact Reachable.step reachable_wit2 h3

/-- C2 (amended): for every well-formed controller state whose pool is
non-empty, whose most recently added worker is PROCESSING a task `t`, and
in which every other pooled worker is also PROCESSING (so the trailing
assignment pass binds nothing), `removeBot` removes exactly that worker
(pool size decreases by one), cancels its timer, sets `t`'s status back
to PENDING, and re-enqueues `t` with the very same priority-insertion
function as a fresh enqueue, so the pending count increases by one.  (As
originally stated — without the clause on the other workers — the claim
is false: see the counterexample, where an idle remaining worker picks
`t` up again within the same call, leaving the pending count unchanged
and `t` PROCESSING.) -/
theorem C2_removeBot_preemption (s : CtrlState) (b : Bot) (t : OrderRef)
    (hwf : WF s)
    (hlast : s.bots.getLast? = some b)
    (hco : b.currentOrder = some t)
    (hbusy : ∀ b' ∈ s.bots.dropLast, b'.status = BotStatus.PROCESSING) :
    ∃ s' b₂, removeBot s = .ok (s', some b₂) ∧
      b₂.botId = b.botId ∧
      b₂.processingTimeout = false ∧
      s'.bots = s.bots.dropLast ∧
      s'.bots.length + 1 = s.bots.length ∧
      statusOf s' t.num = some OrderStatus.PENDING ∧
      s'.orderQueue = s.orderQueue.enqueue t ∧
      s'.orderQueue.size = s.orderQueue.size + 1 := by
  obtain ⟨⟨hqwf, hsp, hrc, hnum, hrn, hbw, hbi, hlf⟩, hsched⟩ := hwf
  have hne : s.bots ≠ [] := by
    intro hc
    rw [hc] at hlast
    cases hlast
  have hbmem : b ∈ s.bots := by
    have hgl := List.getLast?_eq_getLast s.bots hne
    rw [hgl] at hlast
    injection hlast with hlast'
    rw [← hlast']
    exact List.getLast_mem hne
  have hlen1 : 1 ≤ s.bots.length := by
    cases hl : s.bots with
    | nil => exact absurd hl hne
    | cons x xs => simp [hl]
  have herr : (⟨t.num, t.typ, OrderStatus.PROCESSING⟩ : OrderEntry) ∈ s.orders :=
    hrc.2.1 b hbmem t hco
  set b₂ : Bot := { botId := b.botId, status := BotStatus.IDLE, currentOrder := none, processingTimeout := false } with hb₂
  have hstop : b.stopProcessing = (some t, b₂) := by
    simp [Bot.stopProcessing, hco, hb₂]
  set s₂' : CtrlState := setStatus { s with bots := s.bots.dropLast, removedBots := s.removedBots ++ [b₂] } t.num OrderStatus.PENDING with hs₂'
  set s₃ : CtrlState := { s₂' with orderQueue := s₂'.orderQueue.enqueue t } with hs₃
  have hidle_empty : idleIdxs s₃ = [] := by
    unfold idleIdxs
    rw [List.filter_eq_nil_iff]
    intro j hj
    have hjl : j < s₃.bots.length := List.mem_range.mp hj
    have hjl' : j < s.bots.dropLast.length := hjl
    have hmem : s.bots.dropLast.getD j default ∈ s.bots.dropLast :=
      List.getD_mem default hjl'
    have hst := hbusy _ hmem
    have hun : (s₃.bots.getD j default).isIdle
        = decide ((s.bots.dropLast.getD j default).status = BotStatus.IDLE) := rfl
    rw [hun, hst]
    decide
  have hpassEq : assignPass s₃ = .ok s₃ := by
    have hie : (idleIdxs s₃).isEmpty = true := by
      rw [hidle_empty]
      rfl
    simp [assignPass, hie]
  refine ⟨s₃, b₂, ?_, rfl, rfl, rfl, ?_, ?_, rfl, ?_⟩
  · show removeBot s = .ok (s₃, some b₂)
    unfold removeBot
    rw [hlast]
    dsimp only
    rw [hstop]
    dsimp only
    rw [← hs₂', ← hs₃]
    rw [logCall, if_neg (by rw [hs₃, hs₂']; simp [setStatus, hlf])]
    dsimp only
    rw [hpassEq]
  · show s.bots.dropLast.length + 1 = s.bots.length
    rw [List.length_dropLast]
    omega
  · exact statusOf_setStatus_self _ ⟨_, herr, rfl⟩
  · show (s.orderQueue.enqueue t).orders.length = s.orderQueue.orders.length + 1
    exact OrderQueue.enqueue_length _ _

/-- The controller state after `addBot; addBot; createNormalOrder;
createNormalOrder` followed by bot 1's timer firing: bot 1 has completed
order 1001 and sits IDLE, bot 2 (the most recently added) is still
PROCESSING order 1002, and the queue is empty. -/
def cexC2 : CtrlState :=
  { orders := [{ num := 1001, typ := OrderType.NORMAL, status := OrderStatus.COMPLETE },
               { num := 1002, typ := OrderType.NORMAL, status := OrderStatus.PROCESSING }],
    orderQueue := { orders := [], vipOrderCount := 0 },
    completedOrders := [{ num := 1001, typ := OrderType.NORMAL }],
    bots := [{ botId := 1, status := BotStatus.IDLE, currentOrder := none, processingTimeout := false },
             { botId := 2, status := BotStatus.PROCESSING,
               currentOrder := some { num := 1002, typ := OrderType.NORMAL },
               processingTimeout := true }],
    removedBots := [], nextOrderNumber := 1003, nextBotId := 3, loggerFails := false }

/-- C2 counterexample to the claim as stated: in the reachable state
where bot 1 is IDLE (its order already completed) and bot 2 — the most
recently added worker — is PROCESSING order 1002, `removeBot` removes
bot 2 but the trailing assignment pass immediately hands order 1002 to
the idle bot 1, so the pending count stays 0 (it does not increase by
one) and order 1002 ends PROCESSING, not PENDING. -/
theorem C2_counterexample :
    runEvents [Ev.addBot, Ev.addBot, Ev.createNormal, Ev.createNormal, Ev.timerFire 0]
      = some cexC2 ∧
    cexC2.bots.getLast? = some { botId := 2, status := BotStatus.PROCESSING, currentOrder := some { num := 1002, typ := OrderType.NORMAL }, processingTimeout := true } ∧
    cexC2.orderQueue.size = 0 ∧
    (removeBot cexC2).toOption.map
        (fun p => (p.1.orderQueue.size, statusOf p.1 1002, p.1.bots.length))
      = some (0, some OrderStatus.PROCESSING, 1) := by
  decide

theorem C2_removeBot_preemption_witness :
    ∃ s' b₂, removeBot wit2 = .ok (s', some b₂) ∧
      b₂.botId = 1 ∧
      b₂.processingTimeout = false ∧
      s'.bots = wit2.bots.dropLast ∧
      s'.bots.length + 1 = wit2.bots.length ∧
      statusOf s' 1001 = some OrderStatus.PENDING ∧
      s'.orderQueue = wit2.orderQueue.enqueue { num := 1001, typ := OrderType.NORMAL } ∧
      s'.orderQueue.size = wit2.orderQueue.size + 1 :=
  C2_removeBot_preemption wit2
    { botId := 1, status := BotStatus.PROCESSING, currentOrder := some { num := 1001, typ := OrderType.NORMAL }, processingTimeout := true }
    { num := 1001, typ := OrderType.NORMAL }
    (by decide) (by decide) (by decide) (by decide)

/-- C4: in every reachable controller state, an order's status is PENDING
iff its reference sits in the pending queue, PROCESSING iff it is some
pool worker's current task, COMPLETE iff it is in the completed list —
and exactly one of the three placements holds; and every pool worker's
status is PROCESSING iff its current-task slot is set iff its timer
handle is set. -/
theorem C4_status_location_consistency (s : CtrlState) (h : Reachable s) :
    (∀ e ∈ s.orders,
      (e.status = OrderStatus.PENDING ↔ e.ref ∈ s.orderQueue.orders) ∧
      (e.status = OrderStatus.PROCESSING ↔ ∃ b ∈ s.bots, b.currentOrder = some e.ref) ∧
      (e.status = OrderStatus.COMPLETE ↔ e.ref ∈ s.completedOrders) ∧
      ((e.ref ∈ s.orderQueue.orders ∧ ¬(∃ b ∈ s.bots, b.currentOrder = some e.ref) ∧
          e.ref ∉ s.completedOrders) ∨
       (e.ref ∉ s.orderQueue.orders ∧ (∃ b ∈ s.bots, b.currentOrder = some e.ref) ∧
          e.ref ∉ s.completedOrders) ∨
       (e.ref ∉ s.orderQueue.orders ∧ ¬(∃ b ∈ s.bots, b.currentOrder = some e.ref) ∧
          e.ref ∈ s.completedOrders))) ∧
    (∀ b ∈ s.bots,
      (b.status = BotStatus.PROCESSING ↔ b.currentOrder.isSome = true) ∧
      (b.status = BotStatus.PROCESSING ↔ b.processingTimeout = true)) := by
  have hwf := reachable_wf h
  obtain ⟨⟨_, hsp, _, _, _, hbw, _, _⟩, _⟩ := hwf
  refine ⟨?_, hbw.1⟩
  intro e he
  obtain ⟨h1, h2, h3⟩ := hsp e he
  refine ⟨h1, h2, h3, ?_⟩
  cases hst : e.status with
  | PENDING =>
      refine Or.inl ⟨h1.mp hst, ?_, ?_⟩
      · intro hc
        have := h2.mpr hc
        rw [hst] at this
        cases this
      · intro hc
        have := h3.mpr hc
        rw [hst] at this
        cases this
  | PROCESSING =>
      refine Or.inr (Or.inl ⟨?_, h2.mp hst, ?_⟩)
      · intro hc
        have := h1.mpr hc
        rw [hst] at this
        cases this
      · intro hc
        have := h3.mpr hc
        rw [hst] at this
        cases this
  | COMPLETE =>
      refine Or.inr (Or.inr ⟨?_, ?_, h3.mp hst⟩)
      · intro hc
        have := h1.mpr hc
        rw [hst] at this
        cases this
      · intro hc
        have := h2.mpr hc
        rw [hst] at this
        cases this

theorem C4_status_location_consistency_witness :
    (∀ e ∈ wit2.orders,
      (e.status = OrderStatus.PENDING ↔ e.ref ∈ wit2.orderQueue.orders) ∧
      (e.status = OrderStatus.PROCESSING ↔ ∃ b ∈ wit2.bots, b.currentOrder = some e.ref) ∧
      (e.status = OrderStatus.COMPLETE ↔ e.ref ∈ wit2.completedOrders) ∧
      ((e.ref ∈ wit2.orderQueue.orders ∧ ¬(∃ b ∈ wit2.bots, b.currentOrder = some e.ref) ∧
          e.ref ∉ wit2.completedOrders) ∨
       (e.ref ∉ wit2.orderQueue.orders ∧ (∃ b ∈ wit2.bots, b.currentOrder = some e.ref) ∧
          e.ref ∉ wit2.completedOrders) ∨
       (e.ref ∉ wit2.orderQueue.orders ∧ ¬(∃ b ∈ wit2.bots, b.currentOrder = some e.ref) ∧
          e.ref ∈ wit2.completedOrders))) ∧
    (∀ b ∈ wit2.bots,
      (b.status = BotStatus.PROCESSING ↔ b.currentOrder.isSome = true) ∧
      (b.status = BotStatus.PROCESSING ↔ b.processingTimeout = true)) :=
  C4_status_location_consistency wit2 reachable_wit2

/-- C5 (refuting theorem, recording the code bug): the spec requires that
exceptions thrown by the injected notification function do not propagate
out of core operations and that each operation's effects are applied in
full; the code has no try/catch around its logger calls.  On a fresh
controller whose injected logger always throws, `createNormalOrder`
propagates the exception (the result is `.error`), and the carried state
shows the operation partially applied: the new order was pushed and
enqueued, but the trailing assignment pass never ran. -/
theorem C5_logger_exception_escapes :
    createNormalOrder (CtrlState.init true)
      = .error
        { orders := [{ num := 1001, typ := OrderType.NORMAL, status := OrderStatus.PENDING }],
          orderQueue := { orders := [{ num := 1001, typ := OrderType.NORMAL }], vipOrderCount := 0 },
          completedOrders := [], bots := [], removedBots := [],
          nextOrderNumber := 1002, nextBotId := 1, loggerFails := true } :=
  rfl

/-- Controller state with one idle bot and one pending order, as found in
the middle of `removeBot` just before its trailing assignment pass. -/
def witC3 : CtrlState :=
  { orders := [{ num := 1001, typ := OrderType.NORMAL, status := OrderStatus.PENDING }],
    orderQueue := { orders := [{ num := 1001, typ := OrderType.NORMAL }], vipOrderCount := 0 },
    completedOrders := [],
    bots := [{ botId := 1, status := BotStatus.IDLE, currentOrder := none, processingTimeout := false }],
    removedBots := [], nextOrderNumber := 1002, nextBotId := 2, loggerFails := false }

theorem C3_assignment_pass_deterministic_witness :
    WFpre witC3 ∧
    ∃ s', assignPass witC3 = .ok s' ∧
      s'.orderQueue.orders = witC3.orderQueue.orders.drop
        (min (idleIdxs witC3).length witC3.orderQueue.orders.length) ∧
      (∀ m, m < min (idleIdxs witC3).length witC3.orderQueue.orders.length →
        (s'.bots.getD ((idleIdxs witC3).getD m 0) default
          = { botId := (witC3.bots.getD ((idleIdxs witC3).getD m 0) default).botId,
              status := BotStatus.PROCESSING,
              currentOrder := some (witC3.orderQueue.orders.getD m default),
              processingTimeout := true }) ∧
        statusOf s' (witC3.orderQueue.orders.getD m default).num
          = some OrderStatus.PROCESSING) ∧
      (∀ j, j ∉ (idleIdxs witC3).take
          (min (idleIdxs witC3).length witC3.orderQueue.orders.length) →
        s'.bots.getD j default = witC3.bots.getD j default) ∧
      (∀ t t', t.loggerFails = false → idleIdxs t = idleIdxs witC3 →
        t.orderQueue.orders = witC3.orderQueue.orders →
        assignPass t = .ok t' →
        ∀ m, m < min (idleIdxs witC3).length witC3.orderQueue.orders.length →
          (t'.bots.getD ((idleIdxs witC3).getD m 0) default).currentOrder
            = (s'.bots.getD ((idleIdxs witC3).getD m 0) default).currentOrder) :=
  ⟨by decide, C3_assignment_pass_deterministic witC3 (by decide)⟩

/-- Controller state after `addBot; createNormalOrder; createNormalOrder`:
the single bot is processing order 1001 with its timer set while order
1002 waits in the queue. -/
def wit4 : CtrlState :=
  { orders := [{ num := 1001, typ := OrderType.NORMAL, status := OrderStatus.PROCESSING },
               { num := 1002, typ := OrderType.NORMAL, status := OrderStatus.PENDING }],
    orderQueue := { orders := [{ num := 1002, typ := OrderType.NORMAL }], vipOrderCount := 0 },
    completedOrders := [],
    bots := [{ botId := 1, status := BotStatus.PROCESSING,
               currentOrder := some { num := 1001, typ := OrderType.NORMAL },
               processingTimeout := true }],
    removedBots := [], nextOrderNumber := 1003, nextBotId := 2, loggerFails := false }

theorem C6_completion_handler_witness :
    ∃ s' t, fireTimer wit4 0 = .ok s' ∧
      step wit4 (Ev.timerFire 0) = some s' ∧
      (wit4.bots.getD 0 default).currentOrder = some t ∧
      s'.completedOrders = wit4.completedOrders ++ [t] ∧
      s'.completedOrders.length = wit4.completedOrders.length + 1 ∧
      statusOf s' t.num = some OrderStatus.COMPLETE ∧
      (∀ r rest, wit4.orderQueue.orders = r :: rest →
        (s'.bots.getD 0 default).status = BotStatus.PROCESSING ∧
        (s'.bots.getD 0 default).currentOrder = some r ∧
        (s'.bots.getD 0 default).processingTimeout = true ∧
        s'.orderQueue.orders = rest ∧
        s'.orderQueue.size + 1 = wit4.orderQueue.size) :=
  C6_completion_handler wit4 0 (by decide) (by decide) (by decide)

/-- C7: a forced stop and a natural completion never both take effect for
the same task.  A stopped worker's slot is empty, so a completion on it
would deliver no task; in every reachable controller state every removed
worker's timer is cancelled and its slot empty, so a completion on it
would deliver no task either; and no detached-timer event of a removed
worker is even enabled — `step` refuses every such event. -/
theorem C7_no_stop_completion_race (s : CtrlState) (h : Reachable s) :
    (∀ b : Bot, ((b.stopProcessing).2).processingTimeout = false ∧
       (((b.stopProcessing).2).completeOrder).1 = none) ∧
    (∀ b ∈ s.removedBots, b.processingTimeout = false ∧
       b.currentOrder = none ∧ (b.completeOrder).1 = none) ∧
    (∀ j, step s (Ev.timerFireD j) = none) := by
  have hwf := reachable_wf h
  have hrem := hwf.1.2.2.2.2.2.1.2
  refine ⟨?_, ?_, ?_⟩
  · intro b
    cases hco : b.currentOrder with
    | none =>
        constructor
        · simp [Bot.stopProcessing, hco]
        · simp [Bot.stopProcessing, Bot.completeOrder, hco]
    | some r =>
        constructor
        · simp [Bot.stopProcessing, hco]
        · simp [Bot.stopProcessing, Bot.completeOrder, hco]
  · intro b hb
    obtain ⟨_, hco, hpt⟩ := hrem b hb
    exact ⟨hpt, hco, by simp [Bot.completeOrder, hco]⟩
  · intro j
    have hcond : ¬(j < s.removedBots.length ∧
        (s.removedBots.getD j default).processingTimeout = true) := by
      rintro ⟨hj, hpt⟩
      have hmem : s.removedBots.getD j default ∈ s.removedBots :=
        List.getD_mem default hj
      have hfalse := (hrem _ hmem).2.2
      rw [hfalse] at hpt
      cases hpt
    simp only [step]
    rw [if_neg hcond]

theorem C7_no_stop_completion_race_witness :
    (∀ b : Bot, ((b.stopProcessing).2).processingTimeout = false ∧
       (((b.stopProcessing).2).completeOrder).1 = none) ∧
    (∀ b ∈ wit3.removedBots, b.processingTimeout = false ∧
       b.currentOrder = none ∧ (b.completeOrder).1 = none) ∧
    (∀ j, step wit3 (Ev.timerFireD j) = none) :=
  C7_no_stop_completion_race wit3 reachable_wit3

/-- C8: `Bot.prototype.startProcessing` throws exactly when the worker is
not IDLE — i.e. already PROCESSING — and it throws before mutating
anything (the error result carries no changed worker); on an IDLE worker
it raises no error and produces the worker bound to the task, PROCESSING,
with its timer started. -/
theorem C8_assign_precondition_throws (b : Bot) (r : OrderRef) :
    (b.startProcessing r = .error () ↔ b.status = BotStatus.PROCESSING) ∧
    (b.status = BotStatus.IDLE →
      b.startProcessing r = .ok { botId := b.botId, status := BotStatus.PROCESSING, currentOrder := some r, processingTimeout := true }) := by
  cases hs : b.status with
  | IDLE =>
      constructor
      · simp [Bot.startProcessing, hs]
      · intro _
        simp [Bot.startProcessing, hs]
  | PROCESSING =>
      constructor
      · simp [Bot.startProcessing, hs]
      · intro hcon
        cases hcon

theorem C8_assign_precondition_throws_witness :
    Bot.startProcessing
      { botId := 1, status := BotStatus.PROCESSING,
        currentOrder := some { num := 1001, typ := OrderType.NORMAL },
        processingTimeout := true }
      { num := 1002, typ := OrderType.VIP } = .error () ∧
    Bot.startProcessing
      { botId := 2, status := BotStatus.IDLE, currentOrder := none,
        processingTimeout := false }
      { num := 1002, typ := OrderType.VIP }
      = .ok { botId := 2, status := BotStatus.PROCESSING,
              currentOrder := some { num := 1002, typ := OrderType.VIP },
              processingTimeout := true } :=
  ⟨(C8_assign_precondition_throws
      { botId := 1, status := BotStatus.PROCESSING,
        currentOrder := some { num := 1001, typ := OrderType.NORMAL },
        processingTimeout := true }
      { num := 1002, typ := OrderType.VIP }).1.mpr rfl,
   (C8_assign_precondition_throws
      { botId := 2, status := BotStatus.IDLE, currentOrder := none,
        processingTimeout := false }
      { num := 1002, typ := OrderType.VIP }).2 rfl⟩

/-- C9: each empty-case operation returns an explicit empty result,
raises no error, and changes no state: `dequeue` on an empty queue,
`removeBot` on an empty pool, and `stopProcessing` on an idle worker
(no current order, no scheduled timer). -/
theorem C9_empty_cases (q : OrderQueue) (s : CtrlState) (b : Bot)
    (hq : q.orders = []) (hb : s.bots = [])
    (hco : b.currentOrder = none) (htm : b.processingTimeout = false) :
    q.dequeue = (none, q) ∧
    removeBot s = .ok (s, none) ∧
    b.stopProcessing = (none, b) := by
  refine ⟨?_, ?_, ?_⟩
  · unfold OrderQueue.dequeue
    rw [hq]
  · unfold removeBot
    rw [hb]
    rfl
  · cases b with
    | mk bid bst bco btm =>
        simp only at hco htm
        subst hco htm
        rfl

theorem C9_empty_cases_witness :
    OrderQueue.empty.dequeue = (none, OrderQueue.empty) ∧
    removeBot (CtrlState.init false) = .ok (CtrlState.init false, none) ∧
    Bot.stopProcessing
      { botId := 1, status := BotStatus.IDLE, currentOrder := none,
        processingTimeout := false }
      = (none, { botId := 1, status := BotStatus.IDLE, currentOrder := none,
                 processingTimeout := false }) :=
  C9_empty_cases OrderQueue.empty (CtrlState.init false)
    { botId := 1, status := BotStatus.IDLE, currentOrder := none,
      processingTimeout := false }
    rfl rfl rfl rfl

/-- C10: in every reachable controller state, the order numbers (in
creation order) are exactly the consecutive integers starting at
`STARTING_ORDER_NUMBER`, hence strictly increasing regardless of how
normal orders, VIP orders and bots were interleaved, and both id
counters sit exactly at their start value plus the number of ids handed
out; pool bot ids are strictly increasing starting no lower than
`STARTING_BOT_ID`. -/
theorem C10_id_monotonicity (s : CtrlState) (h : Reachable s) :
    s.orders.map OrderEntry.num = List.range' STARTING_ORDER_NUMBER s.orders.length ∧
    List.Chain' (· < ·) (s.orders.map OrderEntry.num) ∧
    (∀ e ∈ s.orders, STARTING_ORDER_NUMBER ≤ e.num) ∧
    s.nextOrderNumber = STARTING_ORDER_NUMBER + s.orders.length ∧
    List.Chain' (· < ·) (s.bots.map Bot.botId) ∧
    (∀ b ∈ s.bots, STARTING_BOT_ID ≤ b.botId ∧ b.botId < s.nextBotId) ∧
    s.nextBotId = STARTING_BOT_ID + s.bots.length + s.removedBots.length := by
  have hwf := reachable_wf h
  obtain ⟨hmap, hnext⟩ := hwf.1.2.2.2.1
  obtain ⟨hchain, hbnd, hbcnt⟩ := hwf.1.2.2.2.2.2.2.1
  refine ⟨hmap, ?_, ?_, hnext, hchain, hbnd, hbcnt⟩
  · rw [hmap]
    exact List.Pairwise.chain' (List.pairwise_lt_range' _ _ 1 Nat.one_pos)
  · intro e he
    have hmem : e.num ∈ s.orders.map OrderEntry.num := List.mem_map_of_mem _ he
    rw [hmap] at hmem
    exact (List.mem_range'_1.mp hmem).1

theorem C10_id_monotonicity_witness :
    wit1.orders.map OrderEntry.num = List.range' STARTING_ORDER_NUMBER wit1.orders.length ∧
    List.Chain' (· < ·) (wit1.orders.map OrderEntry.num) ∧
    (∀ e ∈ wit1.orders, STARTING_ORDER_NUMBER ≤ e.num) ∧
    wit1.nextOrderNumber = STARTING_ORDER_NUMBER + wit1.orders.length ∧
    List.Chain' (· < ·) (wit1.bots.map Bot.botId) ∧
    (∀ b ∈ wit1.bots, STARTING_BOT_ID ≤ b.botId ∧ b.botId < wit1.nextBotId) ∧
    wit1.nextBotId = STARTING_BOT_ID + wit1.bots.length + wit1.removedBots.length :=
  C10_id_monotonicity wit1 reachable_wit1

end OrderSys
